import Mathlib

/-!
# Key-binding resolution and table formatter of grv

A shallow embedding of the key-binding manager of `src/key_bindings.go` (the
`Action` constants, the `Binding` values, the per-view binding stores,
`Binding`, `SetActionBinding`, `SetKeystringBinding`, `setDefaultKeyBindings`,
`isValidAction` and `DefaultKeyBindings`) and of the table formatter of
`src/cmd/grv/table_formatter.go` (`Rows`, `Cols`, `Resize`, `Clear`, `SetCell`,
`AppendToCell`, `RowString`, `PadCells`, `determineMaxColWidths`, `textWidth`),
with the properties of both that the specification states.

Conventions of the embedding.

* Go `string`s are Lean `String`s; the byte-wise prefix relation used by the
  trie is the prefix relation on `String.data` (for well-formed UTF-8 the two
  coincide).
* `Action` and `ViewId` are Go `int` types and are embedded as `Int`.
* The `*KeyBindingManager` receiver is passed explicitly: mutating methods
  return the new manager.
* The constants `VIEW_ALL`, `VIEW_MAIN` and `PROMPT_TEXT` are declared in
  files that are not part of `src/`; every definition that uses one of them
  takes it as a parameter.
* Go leaves the iteration order of a `map` unspecified.  Map literals are
  embedded as association lists in source order, and every loop over a map
  takes the order of iteration as an argument; statements about such loops
  quantify over all permutations of the entries.
-/

namespace Grv

/-! ## Actions and bindings -/

/-- Go: `type Action int`. -/
abbrev Action := Int

/-- Go: `type ViewId int` (declared outside `src/`). -/
abbrev ViewId := Int

def ACTION_NONE : Action := 0
def ACTION_EXIT : Action := 1
def ACTION_PROMPT : Action := 2
def ACTION_NEXT_LINE : Action := 3
def ACTION_PREV_LINE : Action := 4
def ACTION_SCROLL_RIGHT : Action := 5
def ACTION_SCROLL_LEFT : Action := 6
def ACTION_FIRST_LINE : Action := 7
def ACTION_LAST_LINE : Action := 8
def ACTION_SELECT : Action := 9
def ACTION_NEXT_VIEW : Action := 10
def ACTION_PREV_VIEW : Action := 11
def ACTION_FULL_SCREEN_VIEW : Action := 12

/-- Go: `var actionKeys = map[string]Action{...}`, entries in source order. -/
def actionKeys : List (String × Action) :=
  [ ("<grv-nop>", ACTION_NONE),
    ("<grv-exit>", ACTION_EXIT),
    ("<grv-prompt>", ACTION_PROMPT),
    ("<grv-next-line>", ACTION_NEXT_LINE),
    ("<grv-prev-line>", ACTION_PREV_LINE),
    ("<grv-scroll-right>", ACTION_SCROLL_RIGHT),
    ("<grv-scroll-left>", ACTION_SCROLL_LEFT),
    ("<grv-first-line>", ACTION_FIRST_LINE),
    ("<grv-last-line>", ACTION_LAST_LINE),
    ("<grv-select>", ACTION_SELECT),
    ("<grv-next-view>", ACTION_NEXT_VIEW),
    ("<grv-prev-view>", ACTION_PREV_VIEW),
    ("<grv-full-screen-view>", ACTION_FULL_SCREEN_VIEW) ]

/-- Go: `var defaultKeyBindings = map[Action]map[ViewId][]string{...}`,
entries in source order.  Every inner map has a single entry. -/
def defaultKeyBindings (VIEW_ALL VIEW_MAIN : ViewId) (PROMPT_TEXT : String) :
    List (Action × List (ViewId × List String)) :=
  [ (ACTION_PROMPT, [(VIEW_MAIN, [PROMPT_TEXT])]),
    (ACTION_PREV_LINE, [(VIEW_ALL, ["<Up>", "k"])]),
    (ACTION_NEXT_LINE, [(VIEW_ALL, ["<Down>", "j"])]),
    (ACTION_SCROLL_RIGHT, [(VIEW_ALL, ["<Right>", "l"])]),
    (ACTION_SCROLL_LEFT, [(VIEW_ALL, ["<Left>", "h"])]),
    (ACTION_FIRST_LINE, [(VIEW_ALL, ["gg"])]),
    (ACTION_LAST_LINE, [(VIEW_ALL, ["G"])]),
    (ACTION_NEXT_VIEW, [(VIEW_ALL, ["<Tab>", "<C-w>w", "<C-w><C-w>"])]),
    (ACTION_PREV_VIEW, [(VIEW_ALL, ["<S-Tab>", "<C-w>W"])]),
    (ACTION_FULL_SCREEN_VIEW, [(VIEW_ALL, ["f", "<C-w>o", "<C-w><C-o>"])]),
    (ACTION_SELECT, [(VIEW_ALL, ["<Enter>"])]) ]

/-- Go: `type ViewHierarchy []ViewId`. -/
abbrev ViewHierarchy := List ViewId

/-- Go: `type BindingType int` with `BT_ACTION`, `BT_KEYSTRING`. -/
inductive BindingType where
  | BT_ACTION
  | BT_KEYSTRING
  deriving DecidableEq, Repr

/-- Go: `type Binding struct { bindingType; action; keystring }`. -/
structure Binding where
  bindingType : BindingType
  action : Action
  keystring : String
  deriving DecidableEq, Repr

/-- Go: `NewActionBinding`; the `keystring` field keeps its zero value. -/
def NewActionBinding (action : Action) : Binding :=
  { bindingType := BindingType.BT_ACTION, action := action, keystring := "" }

/-- Go: `NewKeystringBinding`. -/
def NewKeystringBinding (keystring : String) : Binding :=
  { bindingType := BindingType.BT_KEYSTRING, keystring := keystring, action := ACTION_NONE }

/-! ## The binding store

`pt.Trie` comes from the external library `github.com/tchap/go-patricia`.
It is embedded by its documented contract as a finite map from keys to items:
`Set` inserts or replaces the item of a key, `Get` returns the item of a key
(`nil` when the key is absent) and `MatchSubtree` reports whether some stored
key has the given key as a prefix.  The manager only ever stores `Binding`
values, so items are `Binding`s and a `nil` result is `none`. -/

/-- The stored `(key, item)` pairs of a trie; keys are pairwise distinct in
every trie built from `NewTrie` by `Set`. -/
structure Trie where
  items : List (String × Binding)
  deriving DecidableEq, Repr

/-- Library `patricia.NewTrie()`: the empty trie. -/
def NewTrie : Trie := ⟨[]⟩

/-- Library `Trie.Get(key)`: the item stored under `key`, if any. -/
def Trie.Get (trie : Trie) (key : String) : Option Binding :=
  trie.items.lookup key

/-- Library `Trie.Set(key, item)`: insert `item`, replacing any previous item
of `key`. -/
def Trie.Set (trie : Trie) (key : String) (item : Binding) : Trie :=
  ⟨(key, item) :: trie.items.filter (fun p => p.1 != key)⟩

/-- Library `Trie.MatchSubtree(key)`: true when some stored key has `key` as a
prefix. -/
def Trie.MatchSubtree (trie : Trie) (key : String) : Bool :=
  trie.items.any (fun p => key.data.isPrefixOf p.1.data)

/-! ## The manager -/

/-- Go: `type KeyBindingManager struct { bindings map[ViewId]*pt.Trie }`. -/
structure KeyBindingManager where
  bindings : ViewId → Option Trie

/-- The manager with `bindings: make(map[ViewId]*pt.Trie)`. -/
def emptyManager : KeyBindingManager := ⟨fun _ => none⟩

/-- The map store `bindings[viewId] = trie`; also the write-back of a trie
that Go mutates through its pointer. -/
def KeyBindingManager.store (m : KeyBindingManager) (viewId : ViewId) (trie : Trie) :
    KeyBindingManager :=
  ⟨fun v => if v = viewId then some trie else m.bindings v⟩

/-- The loop of `Binding` over the scopes still to visit, with the current
value of the local variable `isPrefix`. -/
def bindingLoop (m : KeyBindingManager) (keystring : String) :
    List ViewId → Bool → Binding × Bool
  | [], isPrefix => (NewActionBinding ACTION_NONE, isPrefix)
  | viewId :: rest, isPrefix =>
    match m.bindings viewId with
    | some viewBindings =>
      match viewBindings.Get keystring with
      | some binding => (binding, false)
      | none =>
        if viewBindings.MatchSubtree keystring then bindingLoop m keystring rest true
        else bindingLoop m keystring rest isPrefix
    | none => bindingLoop m keystring rest isPrefix

/-- Go: `func (keyBindingManager *KeyBindingManager) Binding(viewHierarchy, keystring)`. -/
def KeyBindingManager.Binding (m : KeyBindingManager) (VIEW_ALL : ViewId)
    (viewHierarchy : ViewHierarchy) (keystring : String) : Binding × Bool :=
  bindingLoop m keystring (viewHierarchy ++ [VIEW_ALL]) false

/-- Go: `getOrCreateViewBindings`; returns the trie of the view and the
manager, in which a missing trie has been created. -/
def KeyBindingManager.getOrCreateViewBindings (m : KeyBindingManager) (viewId : ViewId) :
    Trie × KeyBindingManager :=
  match m.bindings viewId with
  | some viewBindings => (viewBindings, m)
  | none => (NewTrie, m.store viewId NewTrie)

/-- Go: `SetActionBinding`. -/
def KeyBindingManager.SetActionBinding (m : KeyBindingManager) (viewId : ViewId)
    (keystring : String) (action : Action) : KeyBindingManager :=
  let r := m.getOrCreateViewBindings viewId
  r.2.store viewId (r.1.Set keystring (NewActionBinding action))

/-- Go: `SetKeystringBinding`. -/
def KeyBindingManager.SetKeystringBinding (m : KeyBindingManager) (viewId : ViewId)
    (keystring mappedKeystring : String) : KeyBindingManager :=
  let r := m.getOrCreateViewBindings viewId
  r.2.store viewId (r.1.Set keystring (NewKeystringBinding mappedKeystring))

/-- Go: `setDefaultKeyBindings`, run with the two outer maps iterated in the
orders `actionKeyOrder` and `defaultOrder`. -/
def KeyBindingManager.setDefaultKeyBindings (m : KeyBindingManager) (VIEW_ALL : ViewId)
    (actionKeyOrder : List (String × Action))
    (defaultOrder : List (Action × List (ViewId × List String))) : KeyBindingManager :=
  let m1 := actionKeyOrder.foldl (fun acc e => acc.SetActionBinding VIEW_ALL e.1 e.2) m
  defaultOrder.foldl
    (fun acc e =>
      e.2.foldl
        (fun acc1 viewKeys =>
          viewKeys.2.foldl (fun acc2 key => acc2.SetActionBinding viewKeys.1 key e.1) acc1)
        acc)
    m1

/-- Go: `NewKeyBindingManager`, with the iteration orders of the two maps. -/
def NewKeyBindingManager (VIEW_ALL : ViewId) (actionKeyOrder : List (String × Action))
    (defaultOrder : List (Action × List (ViewId × List String))) : KeyBindingManager :=
  emptyManager.setDefaultKeyBindings VIEW_ALL actionKeyOrder defaultOrder

/-- Go: `isValidAction`. -/
def isValidAction (action : String) : Bool :=
  (actionKeys.lookup action).isSome

/-- Go: `DefaultKeyBindings`; the `nil` slice is the empty list. -/
def DefaultKeyBindings (VIEW_ALL VIEW_MAIN : ViewId) (PROMPT_TEXT : String)
    (action : Action) (viewId : ViewId) : List String :=
  match (defaultKeyBindings VIEW_ALL VIEW_MAIN PROMPT_TEXT).lookup action with
  | none => []
  | some viewKeys =>
    match viewKeys.lookup viewId with
    | some keys => keys
    | none =>
      match viewKeys.lookup VIEW_ALL with
      | some keys => keys
      | none => []

/-! ## Vocabulary of the specification -/

/-- The binding stored for `key` in the store of `viewId`: `none` when the
view has no store or when `key` is not a stored key of it. -/
def storedBinding (m : KeyBindingManager) (viewId : ViewId) (key : String) : Option Binding :=
  (m.bindings viewId).bind (fun trie => trie.Get key)

/-- Key `longer` strictly extends `key`. -/
def strictlyExtends (longer key : String) : Bool :=
  key.data.isPrefixOf longer.data && longer != key

/-- The store of `viewId` exists and holds a key that strictly extends `key`. -/
def hasLongerKey (m : KeyBindingManager) (viewId : ViewId) (key : String) : Bool :=
  match m.bindings viewId with
  | some trie => trie.items.any (fun p => strictlyExtends p.1 key)
  | none => false

/-- Reference resolution over a scope order, following the specification:
the binding of the first scope that has `key` as a stored key, not a prefix;
otherwise the no-op action binding, a prefix exactly when some scope holds a
key that strictly extends `key`. -/
def referenceResolve (m : KeyBindingManager) (scopes : List ViewId) (key : String) :
    Binding × Bool :=
  match scopes.findSome? (fun v => storedBinding m v key) with
  | some binding => (binding, false)
  | none => (NewActionBinding ACTION_NONE, scopes.any (fun v => hasLongerKey m v key))

/-- An installation request: the argument of `SetActionBinding` or of
`SetKeystringBinding`. -/
inductive Installation where
  | action (action : Action)
  | keystring (mappedKeystring : String)
  deriving DecidableEq, Repr

/-- Install a binding for `(viewId, keystring)` with the method the request
names. -/
def KeyBindingManager.install (m : KeyBindingManager) (viewId : ViewId) (keystring : String) :
    Installation → KeyBindingManager
  | Installation.action a => m.SetActionBinding viewId keystring a
  | Installation.keystring mapped => m.SetKeystringBinding viewId keystring mapped

/-- The binding value an installation request stores. -/
def Installation.binding : Installation → Binding
  | Installation.action a => NewActionBinding a
  | Installation.keystring mapped => NewKeystringBinding mapped

/-- The common effect of the two installation methods: the store of `viewId`,
created when missing, receives `Set key binding`. -/
def KeyBindingManager.withBinding (m : KeyBindingManager) (viewId : ViewId) (key : String)
    (binding : Grv.Binding) : KeyBindingManager :=
  m.store viewId (((m.bindings viewId).getD NewTrie).Set key binding)

/-- The hierarchy with every view that has no binding store removed. -/
def dropStoreless (m : KeyBindingManager) (viewHierarchy : ViewHierarchy) : ViewHierarchy :=
  viewHierarchy.filter (fun v => (m.bindings v).isSome)

/-- Run `SetActionBinding` for a list of `(view, sequence, action)` triples,
first to last. -/
def KeyBindingManager.installAll (m : KeyBindingManager)
    (ops : List (ViewId × String × Action)) : KeyBindingManager :=
  ops.foldl (fun acc op => acc.SetActionBinding op.1 op.2.1 op.2.2) m

/-- The `(view, sequence, action)` triples of the first loop of
`setDefaultKeyBindings`, in the order of the iteration. -/
def actionKeyInstallations (VIEW_ALL : ViewId) (actionKeyOrder : List (String × Action)) :
    List (ViewId × String × Action) :=
  actionKeyOrder.map (fun e => (VIEW_ALL, e.1, e.2))

/-- The `(view, sequence, action)` triples of the second loop of
`setDefaultKeyBindings`, in the order of the iteration. -/
def defaultInstallations (defaultOrder : List (Action × List (ViewId × List String))) :
    List (ViewId × String × Action) :=
  defaultOrder.flatMap (fun e =>
    e.2.flatMap (fun viewKeys => viewKeys.2.map (fun key => (viewKeys.1, key, e.1))))

/-- The sequences that `defaultKeyBindings` registers under `VIEW_ALL`, with
their actions. -/
def wildcardDefaults : List (String × Action) :=
  [ ("<Up>", ACTION_PREV_LINE), ("k", ACTION_PREV_LINE),
    ("<Down>", ACTION_NEXT_LINE), ("j", ACTION_NEXT_LINE),
    ("<Right>", ACTION_SCROLL_RIGHT), ("l", ACTION_SCROLL_RIGHT),
    ("<Left>", ACTION_SCROLL_LEFT), ("h", ACTION_SCROLL_LEFT),
    ("gg", ACTION_FIRST_LINE),
    ("G", ACTION_LAST_LINE),
    ("<Tab>", ACTION_NEXT_VIEW), ("<C-w>w", ACTION_NEXT_VIEW), ("<C-w><C-w>", ACTION_NEXT_VIEW),
    ("<S-Tab>", ACTION_PREV_VIEW), ("<C-w>W", ACTION_PREV_VIEW),
    ("f", ACTION_FULL_SCREEN_VIEW), ("<C-w>o", ACTION_FULL_SCREEN_VIEW),
    ("<C-w><C-o>", ACTION_FULL_SCREEN_VIEW),
    ("<Enter>", ACTION_SELECT) ]

/-- A call of `DefaultKeyBindings` as a step of the program: the function
reads the package-level table only, so the manager it runs beside is handed
back as it was found, next to the returned keys. -/
def DefaultKeyBindingsCall (VIEW_ALL VIEW_MAIN : ViewId) (PROMPT_TEXT : String)
    (m : KeyBindingManager) (action : Action) (viewId : ViewId) :
    List String × KeyBindingManager :=
  (DefaultKeyBindings VIEW_ALL VIEW_MAIN PROMPT_TEXT action viewId, m)

/-! ## Example states -/

/-- A manager in which view `1` binds both "g" and "gg". -/
def sameViewManager : KeyBindingManager :=
  (emptyManager.SetActionBinding 1 "g" ACTION_EXIT).SetActionBinding 1 "gg" ACTION_FIRST_LINE

/-- A manager in which scope `0` binds "g" and view `1` binds only "gg". -/
def crossViewManager : KeyBindingManager :=
  (emptyManager.SetActionBinding 0 "g" ACTION_EXIT).SetActionBinding 1 "gg" ACTION_FIRST_LINE

/-- A manager whose only store is that of scope `0`. -/
def wildcardOnlyManager : KeyBindingManager :=
  emptyManager.SetActionBinding 0 "j" ACTION_NEXT_LINE

/-! ## The table formatter (`cmd/grv/table_formatter.go`)

Conventions of this part of the embedding.

* `uint` is the 64-bit unsigned integer: sums of widths and columns wrap
  modulo `2 ^ 64` (`uintWrap`); lengths and indices, on which the code does no
  arithmetic, are plain natural numbers.
* Slices are lists, the `nil` slice is the empty list, and an index expression
  is a total list operation; every statement below is about states reached
  from `NewTableFormatter`, where each index the code uses is in range.
* `fmt.Sprintf(format, args...)` is computed by the caller: the methods that
  take `format` and `args` take the formatted text.
* `ThemeComponentID`, `CmpNone`, `Config` and `DetermineRenderedCodePoint` are
  declared outside `src/`: `Config` is a type parameter, `CmpNone` and
  `DetermineRenderedCodePoint` are arguments of the definitions that use them.
* A method with an `error` result returns the formatter after the call next to
  `none` (for `nil`) or the error message.  A run-time panic is the result
  `none` of an `Option`.
* `strings.Repeat` panics when it is asked for more bytes than the run-time
  system can allocate; that number of bytes is the argument `allocLimit` of
  `PadCells` and of the definitions that call it. -/

/-- Go: `const tfSeparator = " "`. -/
def tfSeparator : String := " "

/-- Go: `type ThemeComponentID` (declared outside `src/`). -/
abbrev ThemeComponentID := Int

/-- Go: `type tableCellText struct { text; themeComponentID }`. -/
structure tableCellText where
  text : String
  themeComponentID : ThemeComponentID
  deriving DecidableEq, Repr

/-- Go: `type tableCell struct { textEntries []tableCellText }`. -/
structure tableCell where
  textEntries : List tableCellText
  deriving DecidableEq, Repr

/-- Go: `type TableFormatter struct { config; maxColWidths []uint; cells [][]tableCell }`. -/
structure TableFormatter (Config : Type) where
  config : Config
  maxColWidths : List Nat
  cells : List (List tableCell)

/-- The element type of the result of `DetermineRenderedCodePoint` (declared
outside `src/`); the formatter reads its field `width` only. -/
structure RenderedCodePoint where
  width : Nat
  deriving DecidableEq, Repr

/-- The number of values of a Go `uint`. -/
def uintModulus : Nat := 2 ^ 64

/-- The value a `uint` holds after an arithmetic operation with exact result `n`. -/
def uintWrap (n : Nat) : Nat := n % uintModulus

/-- Go: the conversion `int(x)` of a `uint`. -/
def uintToInt (x : Nat) : Int :=
  if x < 2 ^ 63 then (x : Int) else (x : Int) - (uintModulus : Int)

/-- Library `strings.Repeat(s, count)`: panics on a negative count, and on a
result of more bytes than the run-time system can allocate; `allocLimit` is
that number of bytes, which the source does not fix. -/
def stringsRepeat (allocLimit : Nat) (s : String) (count : Int) : Option String :=
  if count < 0 then none
  else if s.utf8ByteSize * count.toNat > allocLimit then none
  else some ⟨(List.replicate count.toNat s.data).flatten⟩

/-- Go: `NewTableFormatter`. -/
def NewTableFormatter {Config : Type} (cols : Nat) (config : Config) : TableFormatter Config :=
  { maxColWidths := List.replicate cols 0, config := config, cells := [] }

/-- Go: `Rows`. -/
def TableFormatter.Rows {Config : Type} (tf : TableFormatter Config) : Nat :=
  tf.cells.length

/-- Go: `Cols`. -/
def TableFormatter.Cols {Config : Type} (tf : TableFormatter Config) : Nat :=
  if tf.Rows > 0 then (tf.cells.getD 0 []).length else 0

/-- Go: `Resize`. -/
def TableFormatter.Resize {Config : Type} (tf : TableFormatter Config) (newRows : Nat) :
    TableFormatter Config :=
  if tf.Rows = newRows then tf
  else
    { tf with
      cells := List.replicate newRows (List.replicate tf.maxColWidths.length ⟨[]⟩) }

/-- Go: `Clear`. -/
def TableFormatter.Clear {Config : Type} (tf : TableFormatter Config) : TableFormatter Config :=
  { tf with cells := tf.cells.map (fun row => row.map (fun cell => { cell with textEntries := [] })) }

/-- The Go expression `tableFormatter.cells[rowIndex][colIndex]`. -/
def TableFormatter.cellAt {Config : Type} (tf : TableFormatter Config) (rowIndex colIndex : Nat) :
    tableCell :=
  (tf.cells.getD rowIndex []).getD colIndex ⟨[]⟩

/-- The Go assignment through `tableCell := &tableFormatter.cells[rowIndex][colIndex]`. -/
def TableFormatter.setCellAt {Config : Type} (tf : TableFormatter Config)
    (rowIndex colIndex : Nat) (cell : tableCell) : TableFormatter Config :=
  { tf with cells := tf.cells.set rowIndex ((tf.cells.getD rowIndex []).set colIndex cell) }

/-- The message of the error of `SetCellWithStyle` and `AppendToCellWithStyle`. -/
def invalidCellError (rowIndex colIndex rows cols : Nat) : String :=
  "Invalid rowIndex (" ++ toString rowIndex ++ "), colIndex (" ++ toString colIndex ++
    ") for dimensions rows (" ++ toString rows ++ "), cols (" ++ toString cols ++ ")"

/-- Go: `SetCellWithStyle`; `text` is `fmt.Sprintf(format, args...)`. -/
def TableFormatter.SetCellWithStyle {Config : Type} (tf : TableFormatter Config)
    (rowIndex colIndex : Nat) (themeComponentID : ThemeComponentID) (text : String) :
    TableFormatter Config × Option String :=
  if ¬ (rowIndex < tf.Rows ∧ colIndex < tf.Cols) then
    (tf, some (invalidCellError rowIndex colIndex tf.Rows tf.Cols))
  else
    (tf.setCellAt rowIndex colIndex
      { textEntries := [{ text := text, themeComponentID := themeComponentID }] }, none)

/-- Go: `SetCell`. -/
def TableFormatter.SetCell {Config : Type} (tf : TableFormatter Config)
    (CmpNone : ThemeComponentID) (rowIndex colIndex : Nat) (text : String) :
    TableFormatter Config × Option String :=
  tf.SetCellWithStyle rowIndex colIndex CmpNone text

/-- Go: `AppendToCellWithStyle`; `text` is `fmt.Sprintf(format, args...)`. -/
def TableFormatter.AppendToCellWithStyle {Config : Type} (tf : TableFormatter Config)
    (rowIndex colIndex : Nat) (themeComponentID : ThemeComponentID) (text : String) :
    TableFormatter Config × Option String :=
  if ¬ (rowIndex < tf.Rows ∧ colIndex < tf.Cols) then
    (tf, some (invalidCellError rowIndex colIndex tf.Rows tf.Cols))
  else
    (tf.setCellAt rowIndex colIndex
      { textEntries := (tf.cellAt rowIndex colIndex).textEntries ++
          [{ text := text, themeComponentID := themeComponentID }] }, none)

/-- Go: `AppendToCell`. -/
def TableFormatter.AppendToCell {Config : Type} (tf : TableFormatter Config)
    (CmpNone : ThemeComponentID) (rowIndex colIndex : Nat) (text : String) :
    TableFormatter Config × Option String :=
  tf.AppendToCellWithStyle rowIndex colIndex CmpNone text

/-- Go: `RowString`, the pair `(rowString, err)`. -/
def TableFormatter.RowString {Config : Type} (tf : TableFormatter Config) (rowIndex : Nat) :
    String × Option String :=
  if rowIndex ≥ tf.Rows then
    ("", some ("Invalid rowIndex: " ++ toString rowIndex ++ ", total rows " ++ toString tf.Rows))
  else
    ((tf.cells.getD rowIndex []).foldl
      (fun buf cell => cell.textEntries.foldl (fun b textEntry => b ++ textEntry.text) buf
        ++ tfSeparator) "", none)

/-- The loops of `textWidth` over text entries, code points and rendered code
points, started with the pair `(width, column)`. -/
def renderedWidth {Config : Type}
    (DetermineRenderedCodePoint : Char → Nat → Config → List RenderedCodePoint) (config : Config)
    (textEntries : List tableCellText) (start : Nat × Nat) : Nat × Nat :=
  textEntries.foldl
    (fun acc textEntry =>
      textEntry.text.data.foldl
        (fun acc1 codePoint =>
          (DetermineRenderedCodePoint codePoint acc1.2 config).foldl
            (fun acc2 renderedCodePoint =>
              (uintWrap (acc2.1 + renderedCodePoint.width),
                uintWrap (acc2.2 + renderedCodePoint.width)))
            acc1)
        acc)
    start

/-- Go: `textWidth`. -/
def TableFormatter.textWidth {Config : Type}
    (DetermineRenderedCodePoint : Char → Nat → Config → List RenderedCodePoint)
    (tf : TableFormatter Config) (rowIndex colIndex column : Nat) : Nat :=
  (renderedWidth DetermineRenderedCodePoint tf.config (tf.cellAt rowIndex colIndex).textEntries
    (0, column)).1

/-- The initial value of `column` in `PadCells` and `determineMaxColWidths`. -/
def firstColumn (border : Bool) : Nat :=
  if border then uintWrap (1 + 1) else 1

/-- The loop of `determineMaxColWidths` over the columns already done: the
value of `column` at which column `colIndex` starts. -/
def TableFormatter.columnBefore {Config : Type} (tf : TableFormatter Config) (border : Bool)
    (colIndex : Nat) : Nat :=
  (List.range colIndex).foldl
    (fun column doneColIndex =>
      uintWrap (uintWrap (column + tf.maxColWidths.getD doneColIndex 0) +
        tfSeparator.utf8ByteSize))
    (firstColumn border)

/-- The body of the loop of `determineMaxColWidths` over the rows: widen column
`colIndex` to the width of its cell in row `rowIndex`. -/
def TableFormatter.widenColumn {Config : Type}
    (DetermineRenderedCodePoint : Char → Nat → Config → List RenderedCodePoint)
    (colIndex column : Nat) (tf : TableFormatter Config) (rowIndex : Nat) :
    TableFormatter Config :=
  let width := tf.textWidth DetermineRenderedCodePoint rowIndex colIndex column
  if width > tf.maxColWidths.getD colIndex 0 then
    { tf with maxColWidths := tf.maxColWidths.set colIndex width }
  else tf

/-- The body of the loop of `determineMaxColWidths` over the columns. -/
def TableFormatter.determineMaxColWidth {Config : Type}
    (DetermineRenderedCodePoint : Char → Nat → Config → List RenderedCodePoint)
    (border : Bool) (tf : TableFormatter Config) (colIndex : Nat) : TableFormatter Config :=
  (List.range tf.cells.length).foldl
    (TableFormatter.widenColumn DetermineRenderedCodePoint colIndex
      (tf.columnBefore border colIndex))
    tf

/-- Go: `determineMaxColWidths`. -/
def TableFormatter.determineMaxColWidths {Config : Type}
    (DetermineRenderedCodePoint : Char → Nat → Config → List RenderedCodePoint)
    (tf : TableFormatter Config) (border : Bool) : TableFormatter Config :=
  (List.range tf.maxColWidths.length).foldl
    (TableFormatter.determineMaxColWidth DetermineRenderedCodePoint border) tf

/-- The loop of `PadCells` over the columns of row `rowIndex` that are still to
visit, with the current value of `column`. -/
def TableFormatter.padColumns {Config : Type}
    (DetermineRenderedCodePoint : Char → Nat → Config → List RenderedCodePoint)
    (CmpNone : ThemeComponentID) (allocLimit : Nat) (rowIndex : Nat) :
    List Nat → Nat → TableFormatter Config → Option (TableFormatter Config × Option String)
  | [], _, tf => some (tf, none)
  | colIndex :: rest, column, tf =>
    let width := tf.textWidth DetermineRenderedCodePoint rowIndex colIndex column
    let maxColWidth := tf.maxColWidths.getD colIndex 0
    let next := uintWrap (column + uintWrap (maxColWidth + tfSeparator.utf8ByteSize))
    if width < maxColWidth then
      match stringsRepeat allocLimit " " (uintToInt (maxColWidth - width)) with
      | none => none
      | some spaces =>
        match tf.AppendToCell CmpNone rowIndex colIndex spaces with
        | (tf1, some err) => some (tf1, some err)
        | (tf1, none) =>
          TableFormatter.padColumns DetermineRenderedCodePoint CmpNone allocLimit rowIndex rest next tf1
    else TableFormatter.padColumns DetermineRenderedCodePoint CmpNone allocLimit rowIndex rest next tf

/-- The loop of `PadCells` over the rows that are still to visit. -/
def TableFormatter.padRows {Config : Type}
    (DetermineRenderedCodePoint : Char → Nat → Config → List RenderedCodePoint)
    (CmpNone : ThemeComponentID) (allocLimit : Nat) (border : Bool) :
    List Nat → TableFormatter Config → Option (TableFormatter Config × Option String)
  | [], tf => some (tf, none)
  | rowIndex :: rest, tf =>
    match TableFormatter.padColumns DetermineRenderedCodePoint CmpNone allocLimit rowIndex
        (List.range (tf.cells.getD rowIndex []).length) (firstColumn border) tf with
    | none => none
    | some (tf1, some err) => some (tf1, some err)
    | some (tf1, none) =>
      TableFormatter.padRows DetermineRenderedCodePoint CmpNone allocLimit border rest tf1

/-- Go: `PadCells`. -/
def TableFormatter.PadCells {Config : Type}
    (DetermineRenderedCodePoint : Char → Nat → Config → List RenderedCodePoint)
    (CmpNone : ThemeComponentID) (allocLimit : Nat) (tf : TableFormatter Config) (border : Bool) :
    Option (TableFormatter Config × Option String) :=
  let tf1 := tf.determineMaxColWidths DetermineRenderedCodePoint border
  TableFormatter.padRows DetermineRenderedCodePoint CmpNone allocLimit border
    (List.range tf1.cells.length) tf1

/-! ## Vocabulary for the table formatter -/

/-- A call that changes the formatter: `Resize`, `Clear`, `SetCellWithStyle`
(`SetCell` is the case of the style `CmpNone`), `AppendToCellWithStyle`
(likewise `AppendToCell`) or `PadCells`. -/
inductive TableOp where
  | resize (newRows : Nat)
  | clear
  | setCellWithStyle (rowIndex colIndex : Nat) (themeComponentID : ThemeComponentID)
      (text : String)
  | appendToCellWithStyle (rowIndex colIndex : Nat) (themeComponentID : ThemeComponentID)
      (text : String)
  | padCells (border : Bool)
  deriving DecidableEq, Repr

/-- The formatter after one call; `none` when the call panics. -/
def TableFormatter.step {Config : Type}
    (DetermineRenderedCodePoint : Char → Nat → Config → List RenderedCodePoint)
    (CmpNone : ThemeComponentID) (allocLimit : Nat) (tf : TableFormatter Config) :
    TableOp → Option (TableFormatter Config)
  | TableOp.resize newRows => some (tf.Resize newRows)
  | TableOp.clear => some tf.Clear
  | TableOp.setCellWithStyle rowIndex colIndex themeComponentID text =>
    some (tf.SetCellWithStyle rowIndex colIndex themeComponentID text).1
  | TableOp.appendToCellWithStyle rowIndex colIndex themeComponentID text =>
    some (tf.AppendToCellWithStyle rowIndex colIndex themeComponentID text).1
  | TableOp.padCells border =>
    (tf.PadCells DetermineRenderedCodePoint CmpNone allocLimit border).map Prod.fst

/-- The formatter after a sequence of calls, first to last. -/
def TableFormatter.run {Config : Type}
    (DetermineRenderedCodePoint : Char → Nat → Config → List RenderedCodePoint)
    (CmpNone : ThemeComponentID) (allocLimit : Nat) :
    List TableOp → TableFormatter Config → Option (TableFormatter Config)
  | [], tf => some tf
  | op :: ops, tf =>
    match tf.step DetermineRenderedCodePoint CmpNone allocLimit op with
    | none => none
    | some tf1 => TableFormatter.run DetermineRenderedCodePoint CmpNone allocLimit ops tf1

/-- The shape of a formatter for `cols` columns: `cols` column widths, and
`cols` cells in every row. -/
def TableFormatter.hasShape {Config : Type} (tf : TableFormatter Config) (cols : Nat) : Prop :=
  tf.maxColWidths.length = cols ∧ ∀ row ∈ tf.cells, row.length = cols

/-- The cell at `(rowIndex, colIndex)`, when there is one. -/
def TableFormatter.cellOf {Config : Type} (tf : TableFormatter Config)
    (rowIndex colIndex : Nat) : Option tableCell :=
  (tf.cells[rowIndex]?).bind (fun row => row[colIndex]?)

/-- The string of a row as the specification describes it: column by column,
the texts of the entries of the cell in their order, then one separator. -/
def rowText (row : List tableCell) : String :=
  String.join (row.map (fun cell =>
    String.join (cell.textEntries.map (fun textEntry => textEntry.text)) ++ " "))

/-- A call of `RowString` as a step of the program: the method only reads the
formatter, which is handed back as it was found, next to the results. -/
def TableFormatter.RowStringCall {Config : Type} (tf : TableFormatter Config) (rowIndex : Nat) :
    (String × Option String) × TableFormatter Config :=
  (tf.RowString rowIndex, tf)

/-- A renderer for the examples: a tab advances to the next multiple of eight
columns, every other code point has width one. -/
def exampleRender (codePoint : Char) (column : Nat) (_config : Unit) : List RenderedCodePoint :=
  if codePoint = Char.ofNat 9 then [⟨8 - (column - 1) % 8⟩] else [⟨1⟩]

/-- An allocation limit for the examples: `2 ^ 48` bytes. -/
def exampleAllocLimit : Nat := 2 ^ 48

/-- Calls that build a table of two rows and two columns holding "ab", "c" and
"d", "efg". -/
def exampleOps : List TableOp :=
  [ TableOp.resize 2,
    TableOp.setCellWithStyle 0 0 0 "ab", TableOp.setCellWithStyle 0 1 0 "c",
    TableOp.setCellWithStyle 1 0 0 "d", TableOp.appendToCellWithStyle 1 1 5 "ef",
    TableOp.appendToCellWithStyle 1 1 0 "g" ]

/-- The formatter that `exampleOps` builds from `NewTableFormatter(2, config)`. -/
def filledTable : TableFormatter Unit :=
  { config := (),
    maxColWidths := [0, 0],
    cells := [ [⟨[⟨"ab", 0⟩]⟩, ⟨[⟨"c", 0⟩]⟩], [⟨[⟨"d", 0⟩]⟩, ⟨[⟨"ef", 5⟩, ⟨"g", 0⟩]⟩] ] }

/-- The result of running `exampleOps`. -/
def exampleTable : Option (TableFormatter Unit) :=
  TableFormatter.run exampleRender 0 exampleAllocLimit exampleOps (NewTableFormatter 2 ())

/-- The formatter for three columns after `Resize(2)`, a cell "x" set at
`(1, 2)` and `PadCells(true)`. -/
def paddedTable : TableFormatter Unit :=
  { config := (),
    maxColWidths := [0, 0, 1],
    cells := [ [⟨[]⟩, ⟨[]⟩, ⟨[⟨" ", 0⟩]⟩], [⟨[]⟩, ⟨[]⟩, ⟨[⟨"x", 0⟩]⟩] ] }

/-! ## Lemmas on the store -/

theorem Trie.matchSubtree_of_get_none (trie : Trie) (key : String)
    (h : trie.Get key = none) :
    trie.MatchSubtree key = trie.items.any (fun p => strictlyExtends p.1 key) := by
  unfold Trie.MatchSubtree
  unfold Trie.Get at h
  cases trie with
  | mk items =>
    simp only at h ⊢
    induction items with
    | nil => rfl
    | cons p ps ih =>
      obtain ⟨k, b⟩ := p
      rw [List.lookup_cons] at h
      by_cases hk : key = k
      · subst hk; simp at h
      · have hk2 : (key == k) = false := by simpa using hk
        rw [hk2] at h
        have hk3 : (k != key) = true := by simpa using fun e => hk e.symm
        simp only [List.any_cons, ih h, strictlyExtends, hk3, Bool.and_true]

theorem bindingLoop_eq (m : KeyBindingManager) (key : String) (scopes : List ViewId)
    (acc : Bool) :
    bindingLoop m key scopes acc =
      match scopes.findSome? (fun v => storedBinding m v key) with
      | some binding => (binding, false)
      | none => (NewActionBinding ACTION_NONE,
          acc || scopes.any (fun v => hasLongerKey m v key)) := by
  induction scopes generalizing acc with
  | nil => simp [bindingLoop]
  | cons v rest ih =>
    unfold bindingLoop
    cases hb : m.bindings v with
    | none =>
      have h1 : storedBinding m v key = none := by simp [storedBinding, hb]
      have h2 : hasLongerKey m v key = false := by simp [hasLongerKey, hb]
      simp only [List.findSome?_cons, h1, List.any_cons, h2, Bool.false_or]
      exact ih acc
    | some trie =>
      have h1 : storedBinding m v key = trie.Get key := by simp [storedBinding, hb]
      cases hg : trie.Get key with
      | some b => simp [List.findSome?_cons, h1, hg]
      | none =>
        have h2 : hasLongerKey m v key = trie.MatchSubtree key := by
          rw [Trie.matchSubtree_of_get_none trie key hg]; simp [hasLongerKey, hb]
        simp only [List.findSome?_cons, h1, hg, List.any_cons, h2]
        cases hm : trie.MatchSubtree key with
        | true =>
          simp only [if_true, ih true]
          cases List.findSome? (fun v => storedBinding m v key) rest <;> simp
        | false =>
          simp only [Bool.false_eq_true, if_false, ih acc, Bool.false_or]

theorem binding_eq_reference (m : KeyBindingManager) (VIEW_ALL : ViewId)
    (h : ViewHierarchy) (s : String) :
    m.Binding VIEW_ALL h s = referenceResolve m (h ++ [VIEW_ALL]) s := by
  unfold KeyBindingManager.Binding referenceResolve
  rw [bindingLoop_eq]
  simp

theorem lookup_filter_ne (items : List (String × Binding)) (k k2 : String) (h : k2 ≠ k) :
    (items.filter (fun p => p.1 != k)).lookup k2 = items.lookup k2 := by
  induction items with
  | nil => rfl
  | cons p ps ih =>
    obtain ⟨k3, b3⟩ := p
    by_cases h3 : k3 = k
    · subst h3
      have h4 : (k2 == k3) = false := by simpa using h
      simp [List.filter_cons, List.lookup_cons, h4, ih]
    · have h5 : (k3 != k) = true := by simpa using h3
      simp only [List.filter_cons, h5, if_true, List.lookup_cons, ih]

theorem Trie.get_set (trie : Trie) (k k2 : String) (b : Binding) :
    (trie.Set k b).Get k2 = if k2 = k then some b else trie.Get k2 := by
  unfold Trie.Set Trie.Get
  simp only [List.lookup_cons]
  by_cases h : k2 = k
  · subst h; simp
  · have h1 : (k2 == k) = false := by simpa using h
    rw [h1, if_neg h]
    exact lookup_filter_ne trie.items k k2 h

theorem Trie.any_set (trie : Trie) (k s : String) (b : Binding) :
    (trie.Set k b).items.any (fun p => strictlyExtends p.1 s) =
      (strictlyExtends k s || trie.items.any (fun p => strictlyExtends p.1 s)) := by
  unfold Trie.Set
  cases trie with
  | mk items =>
    simp only [List.any_cons]
    induction items with
    | nil => rfl
    | cons p ps ih =>
      obtain ⟨k3, b3⟩ := p
      by_cases h3 : k3 = k
      · subst h3
        simp only [List.filter_cons, bne_self_eq_false, Bool.false_eq_true, if_false,
          List.any_cons, ih]
        cases strictlyExtends k3 s <;> simp
      · have h5 : (k3 != k) = true := by simpa using h3
        simp only [List.filter_cons, h5, if_true, List.any_cons]
        cases h1 : strictlyExtends k s <;> cases h2 : strictlyExtends k3 s <;> simp_all

theorem Trie.set_set (trie : Trie) (k : String) (b1 b2 : Binding) :
    (trie.Set k b1).Set k b2 = trie.Set k b2 := by
  unfold Trie.Set
  simp [List.filter_cons, List.filter_filter]

/-! ## Lemmas on installation -/

theorem setActionBinding_eq (m : KeyBindingManager) (v : ViewId) (k : String) (a : Action) :
    m.SetActionBinding v k a = m.withBinding v k (NewActionBinding a) := by
  unfold KeyBindingManager.SetActionBinding KeyBindingManager.getOrCreateViewBindings
    KeyBindingManager.withBinding KeyBindingManager.store
  cases hb : m.bindings v with
  | some t => simp
  | none =>
    simp only [Option.getD_none, KeyBindingManager.mk.injEq]
    funext u
    by_cases hu : u = v <;> simp [hu]

theorem setKeystringBinding_eq (m : KeyBindingManager) (v : ViewId) (k mapped : String) :
    m.SetKeystringBinding v k mapped = m.withBinding v k (NewKeystringBinding mapped) := by
  unfold KeyBindingManager.SetKeystringBinding KeyBindingManager.getOrCreateViewBindings
    KeyBindingManager.withBinding KeyBindingManager.store
  cases hb : m.bindings v with
  | some t => simp
  | none =>
    simp only [Option.getD_none, KeyBindingManager.mk.injEq]
    funext u
    by_cases hu : u = v <;> simp [hu]

theorem install_eq (m : KeyBindingManager) (v : ViewId) (k : String) (i : Installation) :
    m.install v k i = m.withBinding v k i.binding := by
  cases i with
  | action a => exact setActionBinding_eq m v k a
  | keystring mapped => exact setKeystringBinding_eq m v k mapped

theorem storedBinding_withBinding (m : KeyBindingManager) (v v2 : ViewId) (k k2 : String)
    (b : Binding) :
    storedBinding (m.withBinding v k b) v2 k2 =
      if v2 = v ∧ k2 = k then some b else storedBinding m v2 k2 := by
  unfold storedBinding KeyBindingManager.withBinding KeyBindingManager.store
  by_cases hv : v2 = v
  · subst hv
    simp only [if_true, Option.bind, true_and, Trie.get_set]
    by_cases hk : k2 = k
    · simp [hk]
    · simp only [if_neg hk]
      cases m.bindings v2 <;> simp [NewTrie, Trie.Get]
  · simp [hv]

theorem hasLongerKey_withBinding (m : KeyBindingManager) (v v2 : ViewId) (k s : String)
    (b : Binding) :
    hasLongerKey (m.withBinding v k b) v2 s =
      ((decide (v2 = v) && strictlyExtends k s) || hasLongerKey m v2 s) := by
  unfold hasLongerKey KeyBindingManager.withBinding KeyBindingManager.store
  by_cases hv : v2 = v
  · subst hv
    simp only [if_true, Trie.any_set, decide_True, Bool.true_and]
    cases m.bindings v2 <;> simp [NewTrie]
  · simp [hv]

theorem withBinding_withBinding (m : KeyBindingManager) (v : ViewId) (k : String)
    (b1 b2 : Binding) :
    (m.withBinding v k b1).withBinding v k b2 = m.withBinding v k b2 := by
  unfold KeyBindingManager.withBinding KeyBindingManager.store
  simp only [if_true, Option.getD_some, Trie.set_set, KeyBindingManager.mk.injEq]
  funext u
  by_cases hu : u = v <;> simp [hu]

/-! ## Lemmas on resolution -/

theorem binding_of_first_exact (m : KeyBindingManager) (VIEW_ALL : ViewId) (h : ViewHierarchy)
    (s : String) (v : ViewId) (b : Binding) (pre post : List ViewId)
    (hsplit : h ++ [VIEW_ALL] = pre ++ v :: post)
    (hahead : ∀ u ∈ pre, storedBinding m u s = none)
    (hv : storedBinding m v s = some b) :
    m.Binding VIEW_ALL h s = (b, false) := by
  have h1 : List.findSome? (fun u => storedBinding m u s) pre = none :=
    List.findSome?_eq_none_iff.mpr hahead
  rw [binding_eq_reference, referenceResolve, hsplit, List.findSome?_append, h1,
    List.findSome?_cons, hv]
  rfl

theorem binding_of_no_exact (m : KeyBindingManager) (VIEW_ALL : ViewId) (h : ViewHierarchy)
    (s : String) (hnone : ∀ u ∈ h ++ [VIEW_ALL], storedBinding m u s = none) :
    m.Binding VIEW_ALL h s =
      (NewActionBinding ACTION_NONE, (h ++ [VIEW_ALL]).any (fun v => hasLongerKey m v s)) := by
  have h1 : List.findSome? (fun u => storedBinding m u s) (h ++ [VIEW_ALL]) = none :=
    List.findSome?_eq_none_iff.mpr hnone
  rw [binding_eq_reference, referenceResolve, h1]

theorem findSome_dropStoreless (m : KeyBindingManager) (s : String) (h : ViewHierarchy) :
    (dropStoreless m h).findSome? (fun v => storedBinding m v s) =
      h.findSome? (fun v => storedBinding m v s) := by
  induction h with
  | nil => rfl
  | cons v rest ih =>
    unfold dropStoreless at ih ⊢
    cases hb : m.bindings v with
    | none =>
      have h1 : storedBinding m v s = none := by simp [storedBinding, hb]
      simp [List.filter_cons, hb, List.findSome?_cons, h1, ih]
    | some t =>
      simp only [List.filter_cons, hb, Option.isSome_some, if_true, List.findSome?_cons, ih]

theorem any_dropStoreless (m : KeyBindingManager) (s : String) (h : ViewHierarchy) :
    (dropStoreless m h).any (fun v => hasLongerKey m v s) =
      h.any (fun v => hasLongerKey m v s) := by
  induction h with
  | nil => rfl
  | cons v rest ih =>
    unfold dropStoreless at ih ⊢
    cases hb : m.bindings v with
    | none =>
      have h1 : hasLongerKey m v s = false := by simp [hasLongerKey, hb]
      simp only [List.filter_cons, hb, Option.isSome_none, Bool.false_eq_true, if_false,
        List.any_cons, h1, Bool.false_or, ih]
    | some t =>
      simp only [List.filter_cons, hb, Option.isSome_some, if_true, List.any_cons, ih]

theorem binding_dropStoreless (m : KeyBindingManager) (VIEW_ALL : ViewId) (h : ViewHierarchy)
    (s : String) :
    m.Binding VIEW_ALL h s = m.Binding VIEW_ALL (dropStoreless m h) s := by
  rw [binding_eq_reference, binding_eq_reference, referenceResolve, referenceResolve,
    List.findSome?_append, List.findSome?_append, List.any_append, List.any_append,
    findSome_dropStoreless, any_dropStoreless]

theorem dropStoreless_wildcardOnly (m : KeyBindingManager) (VIEW_ALL : ViewId)
    (honly : ∀ v, v ≠ VIEW_ALL → m.bindings v = none) (h : ViewHierarchy) :
    ∃ n, dropStoreless m h = List.replicate n VIEW_ALL := by
  induction h with
  | nil => exact ⟨0, rfl⟩
  | cons v rest ih =>
    obtain ⟨n, hn⟩ := ih
    unfold dropStoreless at hn ⊢
    by_cases hv : v = VIEW_ALL
    · subst hv
      cases hb : m.bindings v with
      | none => exact ⟨n, by simp [List.filter_cons, hb, hn]⟩
      | some t => exact ⟨n + 1, by simp [List.filter_cons, hb, hn, List.replicate_succ]⟩
    · exact ⟨n, by simp [List.filter_cons, honly v hv, hn]⟩

theorem findSome_replicate_append {β : Type} (f : ViewId → Option β) (v : ViewId) (n : Nat) :
    (List.replicate n v ++ [v]).findSome? f = f v := by
  induction n with
  | zero => cases hf : f v <;> simp [List.findSome?_cons, hf]
  | succ n ih =>
    simp only [List.replicate_succ, List.cons_append, List.findSome?_cons, ih]
    cases hf : f v <;> rfl

theorem any_replicate_append (f : ViewId → Bool) (v : ViewId) (n : Nat) :
    (List.replicate n v ++ [v]).any f = f v := by
  induction n with
  | zero => simp
  | succ n ih =>
    simp only [List.replicate_succ, List.cons_append, List.any_cons, ih, Bool.or_self]

theorem bindingLoop_replicate (m : KeyBindingManager) (VIEW_ALL : ViewId) (s : String)
    (n : Nat) :
    bindingLoop m s (List.replicate n VIEW_ALL ++ [VIEW_ALL]) false =
      bindingLoop m s [VIEW_ALL] false := by
  rw [bindingLoop_eq, bindingLoop_eq, findSome_replicate_append, any_replicate_append]
  simp [List.findSome?_cons]
  cases storedBinding m VIEW_ALL s <;> rfl

/-! ## Lemmas on seeding -/

theorem foldl_flatMap_eq {α β γ : Type} (f : γ → β → γ) (g : α → List β) (l : List α) (c : γ) :
    (l.flatMap g).foldl f c = l.foldl (fun acc e => (g e).foldl f acc) c := by
  induction l generalizing c with
  | nil => rfl
  | cons x xs ih => simp only [List.flatMap_cons, List.foldl_append, List.foldl_cons, ih]

theorem setDefaultKeyBindings_eq (m : KeyBindingManager) (VIEW_ALL : ViewId)
    (o1 : List (String × Action)) (o2 : List (Action × List (ViewId × List String))) :
    m.setDefaultKeyBindings VIEW_ALL o1 o2 =
      (m.installAll (actionKeyInstallations VIEW_ALL o1)).installAll
        (defaultInstallations o2) := by
  unfold KeyBindingManager.setDefaultKeyBindings KeyBindingManager.installAll
    actionKeyInstallations defaultInstallations
  simp only [List.foldl_map, foldl_flatMap_eq]

theorem installAll_cons (m : KeyBindingManager) (op : ViewId × String × Action)
    (ops : List (ViewId × String × Action)) :
    m.installAll (op :: ops) =
      (m.withBinding op.1 op.2.1 (NewActionBinding op.2.2)).installAll ops := by
  unfold KeyBindingManager.installAll
  rw [List.foldl_cons, setActionBinding_eq]

theorem storedBinding_installAll_of_not_mem (ops : List (ViewId × String × Action))
    (m : KeyBindingManager) (v : ViewId) (k : String) (h : ∀ a, (v, k, a) ∉ ops) :
    storedBinding (m.installAll ops) v k = storedBinding m v k := by
  induction ops generalizing m with
  | nil => rfl
  | cons op rest ih =>
    obtain ⟨v1, k1, a1⟩ := op
    rw [installAll_cons, ih _ (fun a ha => h a (List.mem_cons_of_mem _ ha)),
      storedBinding_withBinding]
    have hne : ¬ (v = v1 ∧ k = k1) := by
      rintro ⟨rfl, rfl⟩
      exact h a1 (List.mem_cons_self _ _)
    rw [if_neg hne]

theorem storedBinding_installAll_of_mem (ops : List (ViewId × String × Action))
    (m : KeyBindingManager) (v : ViewId) (k : String) (a : Action)
    (hmem : (v, k, a) ∈ ops) (huniq : ∀ a2, (v, k, a2) ∈ ops → a2 = a) :
    storedBinding (m.installAll ops) v k = some (NewActionBinding a) := by
  induction ops generalizing m with
  | nil => cases hmem
  | cons op rest ih =>
    rw [installAll_cons]
    by_cases hrest : (v, k, a) ∈ rest
    · exact ih _ hrest (fun a2 h2 => huniq a2 (List.mem_cons_of_mem _ h2))
    · have hop : op = (v, k, a) := by
        rcases List.mem_cons.mp hmem with h1 | h1
        · exact h1.symm
        · exact absurd h1 hrest
      subst hop
      have hnone : ∀ a2, (v, k, a2) ∉ rest := by
        intro a2 h2
        have := huniq a2 (List.mem_cons_of_mem _ h2)
        subst this
        exact hrest h2
      rw [storedBinding_installAll_of_not_mem rest _ v k hnone, storedBinding_withBinding]
      simp

theorem hasLongerKey_installAll (ops : List (ViewId × String × Action))
    (m : KeyBindingManager) (v : ViewId) (s : String) :
    hasLongerKey (m.installAll ops) v s =
      (ops.any (fun op => decide (v = op.1) && strictlyExtends op.2.1 s) ||
        hasLongerKey m v s) := by
  induction ops generalizing m with
  | nil => simp [KeyBindingManager.installAll]
  | cons op rest ih =>
    rw [installAll_cons, ih, hasLongerKey_withBinding, List.any_cons]
    cases (decide (v = op.1) && strictlyExtends op.2.1 s) <;>
      cases (rest.any fun op => decide (v = op.1) && strictlyExtends op.2.1 s) <;> simp

theorem any_congr_of_perm {α : Type} (f : α → Bool) {l1 l2 : List α} (h : l1.Perm l2) :
    l1.any f = l2.any f := by
  rw [Bool.eq_iff_iff, List.any_eq_true, List.any_eq_true]
  constructor
  · rintro ⟨x, hx, hf⟩; exact ⟨x, h.mem_iff.mp hx, hf⟩
  · rintro ⟨x, hx, hf⟩; exact ⟨x, h.mem_iff.mpr hx, hf⟩

theorem actionKeyInstallations_perm (VIEW_ALL : ViewId) {o1 : List (String × Action)}
    (h1 : o1.Perm actionKeys) :
    (actionKeyInstallations VIEW_ALL o1).Perm (actionKeyInstallations VIEW_ALL actionKeys) :=
  h1.map _

theorem defaultInstallations_perm {o2 t : List (Action × List (ViewId × List String))}
    (h2 : o2.Perm t) : (defaultInstallations o2).Perm (defaultInstallations t) :=
  h2.flatMap_right _

theorem defaultInstallations_table (VIEW_ALL VIEW_MAIN : ViewId) (PROMPT_TEXT : String) :
    defaultInstallations (defaultKeyBindings VIEW_ALL VIEW_MAIN PROMPT_TEXT) =
      (VIEW_MAIN, PROMPT_TEXT, ACTION_PROMPT) ::
        wildcardDefaults.map (fun e => (VIEW_ALL, e.1, e.2)) := rfl

theorem newKeyBindingManager_eq (VIEW_ALL : ViewId) (o1 : List (String × Action))
    (o2 : List (Action × List (ViewId × List String))) :
    NewKeyBindingManager VIEW_ALL o1 o2 =
      (emptyManager.installAll (actionKeyInstallations VIEW_ALL o1)).installAll
        (defaultInstallations o2) :=
  setDefaultKeyBindings_eq emptyManager VIEW_ALL o1 o2

theorem seeded_stored_of_default (VIEW_ALL : ViewId) (o1 : List (String × Action))
    {o2 t : List (Action × List (ViewId × List String))} (h2 : o2.Perm t)
    (v : ViewId) (k : String) (a : Action)
    (hmem : (v, k, a) ∈ defaultInstallations t)
    (huniq : ∀ a2, (v, k, a2) ∈ defaultInstallations t → a2 = a) :
    storedBinding (NewKeyBindingManager VIEW_ALL o1 o2) v k = some (NewActionBinding a) := by
  have hp := defaultInstallations_perm h2
  rw [newKeyBindingManager_eq]
  exact storedBinding_installAll_of_mem _ _ v k a (hp.mem_iff.mpr hmem)
    (fun a2 ha2 => huniq a2 (hp.mem_iff.mp ha2))

theorem seeded_stored_none (VIEW_ALL : ViewId) {o1 : List (String × Action)}
    (h1 : o1.Perm actionKeys)
    {o2 t : List (Action × List (ViewId × List String))} (h2 : o2.Perm t)
    (v : ViewId) (k : String)
    (hD : ∀ a2, (v, k, a2) ∉ defaultInstallations t)
    (hK : ∀ a2, (v, k, a2) ∉ actionKeyInstallations VIEW_ALL actionKeys) :
    storedBinding (NewKeyBindingManager VIEW_ALL o1 o2) v k = none := by
  have hp2 := defaultInstallations_perm h2
  have hp1 := actionKeyInstallations_perm VIEW_ALL h1
  rw [newKeyBindingManager_eq,
    storedBinding_installAll_of_not_mem _ _ v k (fun a2 ha2 => hD a2 (hp2.mem_iff.mp ha2)),
    storedBinding_installAll_of_not_mem _ _ v k (fun a2 ha2 => hK a2 (hp1.mem_iff.mp ha2))]
  rfl

theorem seeded_hasLongerKey (VIEW_ALL : ViewId) {o1 : List (String × Action)}
    (h1 : o1.Perm actionKeys)
    {o2 t : List (Action × List (ViewId × List String))} (h2 : o2.Perm t)
    (v : ViewId) (s : String) :
    hasLongerKey (NewKeyBindingManager VIEW_ALL o1 o2) v s =
      ((defaultInstallations t).any (fun op => decide (v = op.1) && strictlyExtends op.2.1 s) ||
        (actionKeyInstallations VIEW_ALL actionKeys).any
          (fun op => decide (v = op.1) && strictlyExtends op.2.1 s)) := by
  rw [newKeyBindingManager_eq, hasLongerKey_installAll, hasLongerKey_installAll,
    any_congr_of_perm _ (defaultInstallations_perm h2),
    any_congr_of_perm _ (actionKeyInstallations_perm VIEW_ALL h1)]
  simp [hasLongerKey, emptyManager]

theorem wildcardDefaults_functional :
    ∀ e1 ∈ wildcardDefaults, ∀ e2 ∈ wildcardDefaults, e1.1 = e2.1 → e1.2 = e2.2 := by
  decide

theorem mem_defaultInstallations_table (VIEW_ALL VIEW_MAIN : ViewId) (PROMPT_TEXT : String)
    (v : ViewId) (k : String) (a : Action) :
    (v, k, a) ∈ defaultInstallations (defaultKeyBindings VIEW_ALL VIEW_MAIN PROMPT_TEXT) ↔
      (v = VIEW_MAIN ∧ k = PROMPT_TEXT ∧ a = ACTION_PROMPT) ∨
        (v = VIEW_ALL ∧ (k, a) ∈ wildcardDefaults) := by
  rw [defaultInstallations_table, List.mem_cons, List.mem_map]
  constructor
  · rintro (h | ⟨e, he, h⟩)
    · left
      simpa using h
    · right
      simp only [Prod.mk.injEq] at h
      obtain ⟨h1, h2, h3⟩ := h
      subst h1 h2 h3
      exact ⟨rfl, he⟩
  · rintro (⟨h1, h2, h3⟩ | ⟨h1, h2⟩)
    · left; rw [h1, h2, h3]
    · right; exact ⟨(k, a), h2, by rw [h1]⟩

theorem mem_actionKeyInstallations (VIEW_ALL : ViewId) (v : ViewId) (k : String) (a : Action) :
    (v, k, a) ∈ actionKeyInstallations VIEW_ALL actionKeys ↔
      v = VIEW_ALL ∧ (k, a) ∈ actionKeys := by
  unfold actionKeyInstallations
  rw [List.mem_map]
  constructor
  · rintro ⟨e, he, h⟩
    simp only [Prod.mk.injEq] at h
    obtain ⟨h1, h2, h3⟩ := h
    subst h1 h2 h3
    exact ⟨rfl, he⟩
  · rintro ⟨h1, h2⟩
    exact ⟨(k, a), h2, by rw [h1]⟩

/-- On a freshly seeded manager, a sequence registered under `VIEW_ALL` in
`defaultKeyBindings` is stored in the wildcard scope with its action, as long
as it is not `PROMPT_TEXT`. -/
theorem seeded_wildcard_default (VIEW_ALL VIEW_MAIN : ViewId) (PROMPT_TEXT : String)
    (o1 : List (String × Action)) {o2 : List (Action × List (ViewId × List String))}
    (h2 : o2.Perm (defaultKeyBindings VIEW_ALL VIEW_MAIN PROMPT_TEXT))
    (k : String) (a : Action) (hk : (k, a) ∈ wildcardDefaults) (hne : PROMPT_TEXT ≠ k) :
    storedBinding (NewKeyBindingManager VIEW_ALL o1 o2) VIEW_ALL k =
      some (NewActionBinding a) := by
  refine seeded_stored_of_default VIEW_ALL o1 h2 VIEW_ALL k a ?_ ?_
  · exact (mem_defaultInstallations_table _ _ _ _ _ _).mpr (Or.inr ⟨rfl, hk⟩)
  · intro a2 ha2
    rcases (mem_defaultInstallations_table _ _ _ _ _ _).mp ha2 with ⟨_, h, _⟩ | ⟨_, h⟩
    · exact absurd h.symm hne
    · exact wildcardDefaults_functional (k, a2) h (k, a) hk rfl

/-- On a freshly seeded manager, a view other than `VIEW_ALL` stores nothing
but `PROMPT_TEXT`, and that only when it is `VIEW_MAIN`. -/
theorem seeded_other_view (VIEW_ALL VIEW_MAIN : ViewId) (PROMPT_TEXT : String)
    {o1 : List (String × Action)} (h1 : o1.Perm actionKeys)
    {o2 : List (Action × List (ViewId × List String))}
    (h2 : o2.Perm (defaultKeyBindings VIEW_ALL VIEW_MAIN PROMPT_TEXT))
    (v : ViewId) (k : String) (hv : v ≠ VIEW_ALL) (hk : v ≠ VIEW_MAIN ∨ k ≠ PROMPT_TEXT) :
    storedBinding (NewKeyBindingManager VIEW_ALL o1 o2) v k = none := by
  refine seeded_stored_none VIEW_ALL h1 h2 v k ?_ ?_
  · intro a2 ha2
    rcases (mem_defaultInstallations_table _ _ _ _ _ _).mp ha2 with ⟨h3, h4, _⟩ | ⟨h3, _⟩
    · rcases hk with hk | hk
      · exact hk h3
      · exact hk h4
    · exact hv h3
  · intro a2 ha2
    exact hv ((mem_actionKeyInstallations _ _ _ _).mp ha2).1

theorem binding_via_wildcard (m : KeyBindingManager) (VIEW_ALL : ViewId) (v : ViewId)
    (s : String) (b : Binding) (hW : storedBinding m VIEW_ALL s = some b)
    (hv : storedBinding m v s = none ∨ storedBinding m v s = some b) :
    m.Binding VIEW_ALL [v] s = (b, false) := by
  rcases hv with hv | hv
  · exact binding_of_first_exact m VIEW_ALL [v] s VIEW_ALL b [v] [] rfl
      (by intro u hu; rw [List.mem_singleton.mp hu]; exact hv) hW
  · exact binding_of_first_exact m VIEW_ALL [v] s v b [] [VIEW_ALL] rfl
      (by intro u hu; cases hu) hv

/-- On a freshly seeded manager, a sequence registered under `VIEW_ALL` in
`defaultKeyBindings` resolves to its action from every single-view hierarchy,
as long as it is not `PROMPT_TEXT`. -/
theorem seeded_resolve_wildcard_default (VIEW_ALL VIEW_MAIN : ViewId) (PROMPT_TEXT : String)
    {o1 : List (String × Action)} (h1 : o1.Perm actionKeys)
    {o2 : List (Action × List (ViewId × List String))}
    (h2 : o2.Perm (defaultKeyBindings VIEW_ALL VIEW_MAIN PROMPT_TEXT))
    (k : String) (a : Action) (hk : (k, a) ∈ wildcardDefaults) (hne : PROMPT_TEXT ≠ k)
    (v : ViewId) :
    (NewKeyBindingManager VIEW_ALL o1 o2).Binding VIEW_ALL [v] k =
      (NewActionBinding a, false) := by
  have hW := seeded_wildcard_default VIEW_ALL VIEW_MAIN PROMPT_TEXT o1 h2 k a hk hne
  refine binding_via_wildcard _ VIEW_ALL v k _ hW ?_
  by_cases hv : v = VIEW_ALL
  · right; rw [hv]; exact hW
  · left
    exact seeded_other_view VIEW_ALL VIEW_MAIN PROMPT_TEXT h1 h2 v k hv
      (Or.inr (fun e => hne e.symm))

/-- On a freshly seeded manager, a sequence that is neither `PROMPT_TEXT`, nor
registered under `VIEW_ALL`, nor a symbolic action name is stored nowhere. -/
theorem seeded_unbound (VIEW_ALL VIEW_MAIN : ViewId) (PROMPT_TEXT : String)
    {o1 : List (String × Action)} (h1 : o1.Perm actionKeys)
    {o2 : List (Action × List (ViewId × List String))}
    (h2 : o2.Perm (defaultKeyBindings VIEW_ALL VIEW_MAIN PROMPT_TEXT))
    (k : String) (hne : PROMPT_TEXT ≠ k)
    (hwd : ∀ e ∈ wildcardDefaults, e.1 ≠ k) (hak : ∀ e ∈ actionKeys, e.1 ≠ k) (v : ViewId) :
    storedBinding (NewKeyBindingManager VIEW_ALL o1 o2) v k = none := by
  refine seeded_stored_none VIEW_ALL h1 h2 v k ?_ ?_
  · intro a2 ha2
    rcases (mem_defaultInstallations_table _ _ _ _ _ _).mp ha2 with ⟨_, h4, _⟩ | ⟨_, h4⟩
    · exact hne h4.symm
    · exact hwd (k, a2) h4 rfl
  · intro a2 ha2
    exact hak (k, a2) ((mem_actionKeyInstallations _ _ _ _).mp ha2).2 rfl

/-- On a freshly seeded manager, the sequences stored in a scope are among
`PROMPT_TEXT`, the `VIEW_ALL` defaults and the symbolic action names. -/
theorem seeded_hasLongerKey_le (VIEW_ALL VIEW_MAIN : ViewId) (PROMPT_TEXT : String)
    {o1 : List (String × Action)} (h1 : o1.Perm actionKeys)
    {o2 : List (Action × List (ViewId × List String))}
    (h2 : o2.Perm (defaultKeyBindings VIEW_ALL VIEW_MAIN PROMPT_TEXT))
    (v : ViewId) (s : String)
    (hlong : hasLongerKey (NewKeyBindingManager VIEW_ALL o1 o2) v s = true) :
    strictlyExtends PROMPT_TEXT s = true ∨
      (∃ e ∈ wildcardDefaults, strictlyExtends e.1 s = true) ∨
      (∃ e ∈ actionKeys, strictlyExtends e.1 s = true) := by
  rw [seeded_hasLongerKey VIEW_ALL h1 h2, Bool.or_eq_true, List.any_eq_true,
    List.any_eq_true] at hlong
  rcases hlong with ⟨⟨w, k, a⟩, hmem, hop⟩ | ⟨⟨w, k, a⟩, hmem, hop⟩
  · simp only [Bool.and_eq_true] at hop
    rcases (mem_defaultInstallations_table _ _ _ _ _ _).mp hmem with ⟨_, h4, _⟩ | ⟨_, h4⟩
    · left; rw [← h4]; exact hop.2
    · right; left; exact ⟨(k, a), h4, hop.2⟩
  · simp only [Bool.and_eq_true] at hop
    right; right
    exact ⟨(k, a), ((mem_actionKeyInstallations _ _ _ _).mp hmem).2, hop.2⟩

theorem mem_of_lookup_eq_some {α β : Type} [BEq α] [LawfulBEq α] (l : List (α × β)) (a : α)
    (b : β) (h : l.lookup a = some b) : (a, b) ∈ l := by
  induction l with
  | nil => cases h
  | cons p ps ih =>
    obtain ⟨a1, b1⟩ := p
    rw [List.lookup_cons] at h
    cases hab : (a == a1) with
    | true =>
      rw [hab] at h
      have h1 : a = a1 := eq_of_beq hab
      have h2 : b1 = b := by simpa using h
      rw [h1, h2]; exact List.mem_cons_self _ _
    | false =>
      rw [hab] at h
      exact List.mem_cons_of_mem _ (ih h)

/-- Every key returned by `DefaultKeyBindings(action, viewId)` is installed for
that action by the second loop of `setDefaultKeyBindings`, under `viewId` or
under `VIEW_ALL`. -/
theorem mem_DefaultKeyBindings (VIEW_ALL VIEW_MAIN : ViewId) (PROMPT_TEXT : String)
    (a : Action) (v : ViewId) (k : String)
    (hk : k ∈ DefaultKeyBindings VIEW_ALL VIEW_MAIN PROMPT_TEXT a v) :
    (v, k, a) ∈ defaultInstallations (defaultKeyBindings VIEW_ALL VIEW_MAIN PROMPT_TEXT) ∨
      (VIEW_ALL, k, a) ∈
        defaultInstallations (defaultKeyBindings VIEW_ALL VIEW_MAIN PROMPT_TEXT) := by
  unfold DefaultKeyBindings at hk
  have hinst : ∀ (w : ViewId) (vks : List (ViewId × List String)) (keys : List String),
      (a, vks) ∈ defaultKeyBindings VIEW_ALL VIEW_MAIN PROMPT_TEXT → (w, keys) ∈ vks →
      k ∈ keys →
      (w, k, a) ∈ defaultInstallations (defaultKeyBindings VIEW_ALL VIEW_MAIN PROMPT_TEXT) := by
    intro w vks keys h1 h2 h3
    unfold defaultInstallations
    exact List.mem_flatMap.mpr ⟨(a, vks), h1,
      List.mem_flatMap.mpr ⟨(w, keys), h2, List.mem_map.mpr ⟨k, h3, rfl⟩⟩⟩
  cases hl : (defaultKeyBindings VIEW_ALL VIEW_MAIN PROMPT_TEXT).lookup a with
  | none => simp only [hl] at hk; cases hk
  | some vks =>
    simp only [hl] at hk
    have h1 := mem_of_lookup_eq_some _ _ _ hl
    cases hv : vks.lookup v with
    | some keys =>
      simp only [hv] at hk
      exact Or.inl (hinst v vks keys h1 (mem_of_lookup_eq_some _ _ _ hv) hk)
    | none =>
      simp only [hv] at hk
      cases hw : vks.lookup VIEW_ALL with
      | some keys =>
        simp only [hw] at hk
        exact Or.inr (hinst VIEW_ALL vks keys h1 (mem_of_lookup_eq_some _ _ _ hw) hk)
      | none => simp only [hw] at hk; cases hk

/-- On a freshly seeded manager `PROMPT_TEXT` is stored for `ACTION_PROMPT` in
`VIEW_MAIN`, as long as it is not one of the `VIEW_ALL` defaults. -/
theorem seeded_prompt (VIEW_ALL VIEW_MAIN : ViewId) (PROMPT_TEXT : String)
    (o1 : List (String × Action)) {o2 : List (Action × List (ViewId × List String))}
    (h2 : o2.Perm (defaultKeyBindings VIEW_ALL VIEW_MAIN PROMPT_TEXT))
    (hfresh : ∀ e ∈ wildcardDefaults, PROMPT_TEXT ≠ e.1) :
    storedBinding (NewKeyBindingManager VIEW_ALL o1 o2) VIEW_MAIN PROMPT_TEXT =
      some (NewActionBinding ACTION_PROMPT) := by
  refine seeded_stored_of_default VIEW_ALL o1 h2 VIEW_MAIN PROMPT_TEXT ACTION_PROMPT ?_ ?_
  · exact (mem_defaultInstallations_table _ _ _ _ _ _).mpr (Or.inl ⟨rfl, rfl, rfl⟩)
  · intro a2 ha2
    rcases (mem_defaultInstallations_table _ _ _ _ _ _).mp ha2 with ⟨_, _, h⟩ | ⟨_, h⟩
    · exact h
    · exact absurd rfl (hfresh (PROMPT_TEXT, a2) h)

theorem seeded_hasLongerKey_of_default (VIEW_ALL VIEW_MAIN : ViewId) (PROMPT_TEXT : String)
    {o1 : List (String × Action)} (h1 : o1.Perm actionKeys)
    {o2 : List (Action × List (ViewId × List String))}
    (h2 : o2.Perm (defaultKeyBindings VIEW_ALL VIEW_MAIN PROMPT_TEXT))
    (k : String) (a : Action) (s : String) (hk : (k, a) ∈ wildcardDefaults)
    (hext : strictlyExtends k s = true) :
    hasLongerKey (NewKeyBindingManager VIEW_ALL o1 o2) VIEW_ALL s = true := by
  rw [seeded_hasLongerKey VIEW_ALL h1 h2, Bool.or_eq_true, List.any_eq_true]
  left
  refine ⟨(VIEW_ALL, k, a), (mem_defaultInstallations_table _ _ _ _ _ _).mpr (Or.inr ⟨rfl, hk⟩), ?_⟩
  simp [hext]

theorem not_isPrefixOf_ne (PROMPT_TEXT s : String)
    (h : s.data.isPrefixOf PROMPT_TEXT.data = false) : PROMPT_TEXT ≠ s := by
  intro e
  subst e
  have h1 : PROMPT_TEXT.data.isPrefixOf PROMPT_TEXT.data = true :=
    List.isPrefixOf_iff_prefix.mpr (List.prefix_refl _)
  rw [h1] at h
  cases h

/-! ## Resolution over a hierarchy -/

/-- C1: `Binding(h, s)` equals the reference resolution over the scope order
`h ++ [VIEW_ALL]`: the binding of the first scope that stores `s`, with
`isPrefix = false`; otherwise the no-op action binding, with `isPrefix` true
exactly when some scope holds a key that strictly extends `s`. -/
theorem C1_binding_eq_referenceResolve (m : KeyBindingManager) (VIEW_ALL : ViewId)
    (h : ViewHierarchy) (s : String) :
    m.Binding VIEW_ALL h s = referenceResolve m (h ++ [VIEW_ALL]) s :=
  binding_eq_reference m VIEW_ALL h s

/-- C2: exact-match priority.  When `V` occurs in `h ++ [VIEW_ALL]`, `S` is
bound to `A` in `V` and no scope ahead of `V` has an exact entry for `S`, then
`Binding(h, S)` returns `A` (not a prefix), whatever longer keys the scopes
ahead of `V` hold. -/
theorem C2_exact_match_priority (m : KeyBindingManager) (VIEW_ALL : ViewId)
    (h : ViewHierarchy) (S : String) (V : ViewId) (A : Binding) (pre post : List ViewId)
    (hsplit : h ++ [VIEW_ALL] = pre ++ V :: post)
    (hahead : ∀ u ∈ pre, storedBinding m u S = none)
    (hV : storedBinding m V S = some A) :
    m.Binding VIEW_ALL h S = (A, false) :=
  binding_of_first_exact m VIEW_ALL h S V A pre post hsplit hahead hV

/-- Witness of C2: scope `0` binds "g", view `1` ahead of it only holds the
longer key "gg". -/
theorem C2_exact_match_priority_witness :
    ([1] ++ [0] = [1] ++ (0 : ViewId) :: []) ∧
    (∀ u ∈ [(1 : ViewId)], storedBinding crossViewManager u "g" = none) ∧
    hasLongerKey crossViewManager 1 "g" = true ∧
    storedBinding crossViewManager 0 "g" = some (NewActionBinding ACTION_EXIT) ∧
    crossViewManager.Binding 0 [1] "g" = (NewActionBinding ACTION_EXIT, false) :=
  ⟨rfl, by decide, by decide, by decide,
    C2_exact_match_priority crossViewManager 0 [1] "g" 0 (NewActionBinding ACTION_EXIT) [1] []
      rfl (by decide) (by decide)⟩

/-- Counterexample to C3 as stated: view `1` binds "g" to `ACTION_EXIT` and
"gg" to `ACTION_FIRST_LINE`, and is the first scope of the hierarchy, yet the
resolution of "g" reports `isPrefix = false`. -/
theorem C3_counterexample :
    storedBinding sameViewManager 1 "g" = some (NewActionBinding ACTION_EXIT) ∧
    storedBinding sameViewManager 1 "gg" = some (NewActionBinding ACTION_FIRST_LINE) ∧
    hasLongerKey sameViewManager 1 "g" = true ∧
    sameViewManager.Binding 0 [1] "g" ≠ (NewActionBinding ACTION_EXIT, true) := by
  decide

/-- C3 (amended): when view `V` holds both a binding `s -> A` and a strictly
longer key that extends `s`, and `V` is the first scope of the hierarchy,
`Binding` returns `A` together with `isPrefix = false`: only the exact match
is communicated. -/
theorem C3_same_view_exact_not_a_prefix (m : KeyBindingManager) (VIEW_ALL : ViewId)
    (V : ViewId) (rest : ViewHierarchy) (s : String) (A : Binding)
    (hA : storedBinding m V s = some A)
    (_hlonger : hasLongerKey m V s = true) :
    m.Binding VIEW_ALL (V :: rest) s = (A, false) :=
  binding_of_first_exact m VIEW_ALL (V :: rest) s V A [] (rest ++ [VIEW_ALL]) rfl
    (by intro u hu; cases hu) hA

/-- Witness of C3 (amended), at "g" and "gg" bound in view `1`. -/
theorem C3_same_view_exact_not_a_prefix_witness :
    storedBinding sameViewManager 1 "g" = some (NewActionBinding ACTION_EXIT) ∧
    hasLongerKey sameViewManager 1 "g" = true ∧
    sameViewManager.Binding 0 (1 :: []) "g" = (NewActionBinding ACTION_EXIT, false) :=
  ⟨by decide, by decide,
    C3_same_view_exact_not_a_prefix sameViewManager 0 1 [] "g" (NewActionBinding ACTION_EXIT)
      (by decide) (by decide)⟩

/-- Counterexample to C4 as stated: "g" is bound in the wildcard scope `0`,
not bound in view `1`, and a strict prefix of "gg" bound in view `1`; the
resolution returns the wildcard binding, not the no-op binding with
`isPrefix = true`. -/
theorem C4_counterexample :
    storedBinding crossViewManager 0 "g" = some (NewActionBinding ACTION_EXIT) ∧
    storedBinding crossViewManager 1 "g" = none ∧
    hasLongerKey crossViewManager 1 "g" = true ∧
    crossViewManager.Binding 0 [1] "g" ≠ (NewActionBinding ACTION_NONE, true) ∧
    crossViewManager.Binding 0 [1] "g" = (NewActionBinding ACTION_EXIT, false) := by
  decide

/-- C4 (amended): when `s` is exactly bound to `W` in the wildcard scope, is
not exactly bound in the view `V2`, and is a strict prefix of a longer key of
`V2`, the wildcard exact match wins: `Binding([V2], s)` returns `W` with
`isPrefix = false`. -/
theorem C4_wildcard_exact_wins (m : KeyBindingManager) (VIEW_ALL : ViewId)
    (V2 : ViewId) (s : String) (W : Binding)
    (hW : storedBinding m VIEW_ALL s = some W)
    (hnot : storedBinding m V2 s = none)
    (_hlonger : hasLongerKey m V2 s = true) :
    m.Binding VIEW_ALL [V2] s = (W, false) :=
  binding_of_first_exact m VIEW_ALL [V2] s VIEW_ALL W [V2] [] rfl
    (by intro u hu; rw [List.mem_singleton.mp hu]; exact hnot) hW

/-- Witness of C4 (amended), at "g" in scope `0` and "gg" in view `1`. -/
theorem C4_wildcard_exact_wins_witness :
    storedBinding crossViewManager 0 "g" = some (NewActionBinding ACTION_EXIT) ∧
    storedBinding crossViewManager 1 "g" = none ∧
    hasLongerKey crossViewManager 1 "g" = true ∧
    crossViewManager.Binding 0 [1] "g" = (NewActionBinding ACTION_EXIT, false) :=
  ⟨by decide, by decide, by decide,
    C4_wildcard_exact_wins crossViewManager 0 1 "g" (NewActionBinding ACTION_EXIT)
      (by decide) (by decide) (by decide)⟩

/-! ## Installation -/

/-- C5: install-then-resolve round trip.  For a non-empty sequence `k` and a
hierarchy whose first element is `v`, after `SetActionBinding(v, k, a)` the
resolution of `k` is exactly the action binding of `a`, not a prefix; after
`SetKeystringBinding(v, k, mapped)` it is exactly the keystring binding that
carries `mapped` and `ACTION_NONE`, not a prefix.  The replacement is returned
as it is, also when it is `k` itself or another bound sequence. -/
theorem C5_install_then_resolve (m : KeyBindingManager) (VIEW_ALL : ViewId) (v : ViewId)
    (rest : ViewHierarchy) (k : String) (a : Action) (mapped : String)
    (_hk : k ≠ "") :
    (m.SetActionBinding v k a).Binding VIEW_ALL (v :: rest) k = ({ bindingType := BindingType.BT_ACTION, action := a, keystring := "" }, false) ∧
    (m.SetKeystringBinding v k mapped).Binding VIEW_ALL (v :: rest) k =
      ({ bindingType := BindingType.BT_KEYSTRING, action := ACTION_NONE,
         keystring := mapped }, false) ∧
    ((m.SetKeystringBinding v k k).Binding VIEW_ALL (v :: rest) k).1.keystring = k := by
  have key : ∀ b : Binding, (m.withBinding v k b).Binding VIEW_ALL (v :: rest) k = (b, false) := by
    intro b
    refine binding_of_first_exact _ VIEW_ALL (v :: rest) k v b [] (rest ++ [VIEW_ALL]) rfl
      (by intro u hu; cases hu) ?_
    rw [storedBinding_withBinding]; simp
  refine ⟨?_, ?_, ?_⟩
  · rw [setActionBinding_eq]; exact key _
  · rw [setKeystringBinding_eq]; exact key _
  · rw [setKeystringBinding_eq, key]; rfl

/-- Witness of C5, on the manager that already binds "g" and "gg" in view `1`. -/
theorem C5_install_then_resolve_witness :
    ("g" ≠ "") ∧
    (sameViewManager.SetActionBinding 1 "g" ACTION_SELECT).Binding 0 (1 :: [2]) "g" =
      ({ bindingType := BindingType.BT_ACTION, action := ACTION_SELECT, keystring := "" }, false) ∧
    (sameViewManager.SetKeystringBinding 1 "g" "gg").Binding 0 (1 :: [2]) "g" =
      ({ bindingType := BindingType.BT_KEYSTRING, action := ACTION_NONE,
         keystring := "gg" }, false) ∧
    ((sameViewManager.SetKeystringBinding 1 "g" "g").Binding 0 (1 :: [2]) "g").1.keystring =
      "g" :=
  ⟨by decide, C5_install_then_resolve sameViewManager 0 1 [2] "g" ACTION_SELECT "gg" (by decide)⟩

/-- C6: overwrite is last-write-wins and idempotent.  Installing `b1` and then
`b2` for `(v, k)` gives the same result of `Binding(h, s)`, for every `h` and
`s`, as installing only `b2`; in particular installing the same binding twice
resolves as installing it once. -/
theorem C6_overwrite_last_write_wins (m : KeyBindingManager) (VIEW_ALL : ViewId) (v : ViewId)
    (k : String) (b1 b2 : Installation) (h : ViewHierarchy) (s : String) :
    ((m.install v k b1).install v k b2).Binding VIEW_ALL h s =
      (m.install v k b2).Binding VIEW_ALL h s ∧
    ((m.install v k b2).install v k b2).Binding VIEW_ALL h s =
      (m.install v k b2).Binding VIEW_ALL h s := by
  have key : ∀ i : Installation, (m.install v k i).install v k b2 = m.install v k b2 := by
    intro i
    rw [install_eq, install_eq, install_eq, withBinding_withBinding]
  rw [key b1, key b2]
  exact ⟨rfl, rfl⟩

/-- C7: views without a binding store are transparent.  `Binding(h, s)` is
the result for `h` with every storeless view removed; and when only the
wildcard scope has a store, the empty hierarchy resolves as every
hierarchy does. -/
theorem C7_storeless_views_transparent (m : KeyBindingManager) (VIEW_ALL : ViewId)
    (h : ViewHierarchy) (s : String) :
    m.Binding VIEW_ALL h s = m.Binding VIEW_ALL (dropStoreless m h) s ∧
    ((∀ v, v ≠ VIEW_ALL → m.bindings v = none) →
      m.Binding VIEW_ALL [] s = m.Binding VIEW_ALL h s) := by
  refine ⟨binding_dropStoreless m VIEW_ALL h s, fun honly => ?_⟩
  obtain ⟨n, hn⟩ := dropStoreless_wildcardOnly m VIEW_ALL honly h
  rw [binding_dropStoreless m VIEW_ALL h s, hn]
  unfold KeyBindingManager.Binding
  rw [bindingLoop_replicate]
  rfl

/-- Witness of C7: only scope `0` has a store, and "j" resolves through the
hierarchy `[5, 0, 7]` as through the empty one. -/
theorem C7_storeless_views_transparent_witness :
    (∀ v : ViewId, v ≠ 0 → wildcardOnlyManager.bindings v = none) ∧
    wildcardOnlyManager.Binding 0 [] "j" = wildcardOnlyManager.Binding 0 [5, 0, 7] "j" ∧
    wildcardOnlyManager.Binding 0 [5, 0, 7] "j" = (NewActionBinding ACTION_NEXT_LINE, false) :=
  have honly : ∀ v : ViewId, v ≠ 0 → wildcardOnlyManager.bindings v = none := by
    intro v hv
    simp [wildcardOnlyManager, setActionBinding_eq, KeyBindingManager.withBinding,
      KeyBindingManager.store, emptyManager, hv]
  ⟨honly, (C7_storeless_views_transparent wildcardOnlyManager 0 [5, 0, 7] "j").2 honly,
    by decide⟩

theorem defaultKeyBindings_prompt (VIEW_ALL VIEW_MAIN : ViewId) (PROMPT_TEXT : String) :
    DefaultKeyBindings VIEW_ALL VIEW_MAIN PROMPT_TEXT ACTION_PROMPT VIEW_MAIN = [PROMPT_TEXT] := by
  simp [DefaultKeyBindings, defaultKeyBindings, List.lookup]

theorem defaultKeyBindings_wildcard (VIEW_ALL VIEW_MAIN : ViewId) (PROMPT_TEXT : String)
    (v : ViewId) :
    ∀ e ∈ wildcardDefaults, e.1 ∈ DefaultKeyBindings VIEW_ALL VIEW_MAIN PROMPT_TEXT e.2 v := by
  intro e he
  simp only [wildcardDefaults, List.mem_cons, List.mem_singleton, List.not_mem_nil, or_false] at he
  by_cases hv : v = VIEW_ALL
  · rcases he with h | h | h | h | h | h | h | h | h | h | h | h | h | h | h | h | h | h | h <;>
      subst h <;>
      simp [DefaultKeyBindings, defaultKeyBindings, List.lookup, hv, ACTION_PROMPT,
        ACTION_PREV_LINE, ACTION_NEXT_LINE, ACTION_SCROLL_RIGHT, ACTION_SCROLL_LEFT,
        ACTION_FIRST_LINE, ACTION_LAST_LINE, ACTION_NEXT_VIEW, ACTION_PREV_VIEW,
        ACTION_FULL_SCREEN_VIEW, ACTION_SELECT]
  · have hv2 : (v == VIEW_ALL) = false := by simpa using hv
    rcases he with h | h | h | h | h | h | h | h | h | h | h | h | h | h | h | h | h | h | h <;>
      subst h <;>
      simp [DefaultKeyBindings, defaultKeyBindings, List.lookup, hv2, ACTION_PROMPT,
        ACTION_PREV_LINE, ACTION_NEXT_LINE, ACTION_SCROLL_RIGHT, ACTION_SCROLL_LEFT,
        ACTION_FIRST_LINE, ACTION_LAST_LINE, ACTION_NEXT_VIEW, ACTION_PREV_VIEW,
        ACTION_FULL_SCREEN_VIEW, ACTION_SELECT]

/-! ## The default bindings -/

/-- C8: default single-key scenario.  On a manager freshly built by
`NewKeyBindingManager`, whatever order the default tables are iterated in,
`Binding([VIEW_MAIN], "j")` is the action binding `ACTION_NEXT_LINE`, not a
prefix, `Binding([VIEW_MAIN], "<Tab>")` is the action binding
`ACTION_NEXT_VIEW`, and `Binding([VIEW_MAIN], "z")` is the action binding
`ACTION_NONE`, not a prefix.  `PROMPT_TEXT` is declared outside `src/`; it is
assumed not to be "j" or "<Tab>" and not to start with "z". -/
theorem C8_default_single_key (VIEW_ALL VIEW_MAIN : ViewId) (PROMPT_TEXT : String)
    (o1 : List (String × Action)) (o2 : List (Action × List (ViewId × List String)))
    (h1 : o1.Perm actionKeys)
    (h2 : o2.Perm (defaultKeyBindings VIEW_ALL VIEW_MAIN PROMPT_TEXT))
    (hj : PROMPT_TEXT ≠ "j") (htab : PROMPT_TEXT ≠ "<Tab>")
    (hz : "z".data.isPrefixOf PROMPT_TEXT.data = false) :
    (NewKeyBindingManager VIEW_ALL o1 o2).Binding VIEW_ALL [VIEW_MAIN] "j" =
      ({ bindingType := BindingType.BT_ACTION, action := ACTION_NEXT_LINE, keystring := "" }, false) ∧
    (NewKeyBindingManager VIEW_ALL o1 o2).Binding VIEW_ALL [VIEW_MAIN] "<Tab>" =
      ({ bindingType := BindingType.BT_ACTION, action := ACTION_NEXT_VIEW, keystring := "" }, false) ∧
    (NewKeyBindingManager VIEW_ALL o1 o2).Binding VIEW_ALL [VIEW_MAIN] "z" =
      ({ bindingType := BindingType.BT_ACTION, action := ACTION_NONE, keystring := "" }, false) := by
  refine ⟨?_, ?_, ?_⟩
  · exact seeded_resolve_wildcard_default VIEW_ALL VIEW_MAIN PROMPT_TEXT h1 h2 "j"
      ACTION_NEXT_LINE (by decide) hj VIEW_MAIN
  · exact seeded_resolve_wildcard_default VIEW_ALL VIEW_MAIN PROMPT_TEXT h1 h2 "<Tab>"
      ACTION_NEXT_VIEW (by decide) htab VIEW_MAIN
  · have hne : PROMPT_TEXT ≠ "z" := not_isPrefixOf_ne PROMPT_TEXT "z" hz
    rw [binding_of_no_exact _ VIEW_ALL [VIEW_MAIN] "z"
      (fun u _ => seeded_unbound VIEW_ALL VIEW_MAIN PROMPT_TEXT h1 h2 "z" hne
        (by decide) (by decide) u)]
    refine Prod.ext rfl ?_
    rw [List.any_eq_false]
    intro u _ hlong
    rcases seeded_hasLongerKey_le VIEW_ALL VIEW_MAIN PROMPT_TEXT h1 h2 u "z" hlong with
      h | ⟨e, he, h⟩ | ⟨e, he, h⟩
    · simp [strictlyExtends, hz] at h
    · exact absurd h (by revert e; decide)
    · exact absurd h (by revert e; decide)

/-- Witness of C8, with `VIEW_ALL = 0`, `VIEW_MAIN = 1`, `PROMPT_TEXT = ":"`
and both tables iterated last entry first. -/
theorem C8_default_single_key_witness :
    (NewKeyBindingManager 0 actionKeys.reverse
        (defaultKeyBindings 0 1 ":").reverse).Binding 0 [1] "j" =
      ({ bindingType := BindingType.BT_ACTION, action := ACTION_NEXT_LINE, keystring := "" }, false) ∧
    (NewKeyBindingManager 0 actionKeys.reverse
        (defaultKeyBindings 0 1 ":").reverse).Binding 0 [1] "<Tab>" =
      ({ bindingType := BindingType.BT_ACTION, action := ACTION_NEXT_VIEW, keystring := "" }, false) ∧
    (NewKeyBindingManager 0 actionKeys.reverse
        (defaultKeyBindings 0 1 ":").reverse).Binding 0 [1] "z" =
      ({ bindingType := BindingType.BT_ACTION, action := ACTION_NONE, keystring := "" }, false) :=
  C8_default_single_key 0 1 ":" actionKeys.reverse (defaultKeyBindings 0 1 ":").reverse
    (List.reverse_perm _) (List.reverse_perm _) (by decide) (by decide) (by decide)

/-- C9: default multi-key scenario.  On a manager freshly built by
`NewKeyBindingManager`, whatever order the default tables are iterated in,
`Binding([VIEW_MAIN], "g")` is the action binding `ACTION_NONE` with
`isPrefix = true`, and `Binding([VIEW_MAIN], "gg")` is the action binding
`ACTION_FIRST_LINE` with `isPrefix = false`.  `PROMPT_TEXT` is declared
outside `src/`; it is assumed to be neither "g" nor "gg". -/
theorem C9_default_multi_key (VIEW_ALL VIEW_MAIN : ViewId) (PROMPT_TEXT : String)
    (o1 : List (String × Action)) (o2 : List (Action × List (ViewId × List String)))
    (h1 : o1.Perm actionKeys)
    (h2 : o2.Perm (defaultKeyBindings VIEW_ALL VIEW_MAIN PROMPT_TEXT))
    (hg : PROMPT_TEXT ≠ "g") (hgg : PROMPT_TEXT ≠ "gg") :
    (NewKeyBindingManager VIEW_ALL o1 o2).Binding VIEW_ALL [VIEW_MAIN] "g" =
      ({ bindingType := BindingType.BT_ACTION, action := ACTION_NONE, keystring := "" }, true) ∧
    (NewKeyBindingManager VIEW_ALL o1 o2).Binding VIEW_ALL [VIEW_MAIN] "gg" =
      ({ bindingType := BindingType.BT_ACTION, action := ACTION_FIRST_LINE, keystring := "" }, false) := by
  refine ⟨?_, ?_⟩
  · rw [binding_of_no_exact _ VIEW_ALL [VIEW_MAIN] "g"
      (fun u _ => seeded_unbound VIEW_ALL VIEW_MAIN PROMPT_TEXT h1 h2 "g" hg
        (by decide) (by decide) u)]
    refine Prod.ext rfl ?_
    rw [List.any_eq_true]
    exact ⟨VIEW_ALL, by simp,
      seeded_hasLongerKey_of_default VIEW_ALL VIEW_MAIN PROMPT_TEXT h1 h2 "gg"
        ACTION_FIRST_LINE "g" (by decide) (by decide)⟩
  · exact seeded_resolve_wildcard_default VIEW_ALL VIEW_MAIN PROMPT_TEXT h1 h2 "gg"
      ACTION_FIRST_LINE (by decide) hgg VIEW_MAIN

/-- Witness of C9, with `VIEW_ALL = 0`, `VIEW_MAIN = 1`, `PROMPT_TEXT = ":"`
and both tables iterated last entry first. -/
theorem C9_default_multi_key_witness :
    (NewKeyBindingManager 0 actionKeys.reverse
        (defaultKeyBindings 0 1 ":").reverse).Binding 0 [1] "g" =
      ({ bindingType := BindingType.BT_ACTION, action := ACTION_NONE, keystring := "" }, true) ∧
    (NewKeyBindingManager 0 actionKeys.reverse
        (defaultKeyBindings 0 1 ":").reverse).Binding 0 [1] "gg" =
      ({ bindingType := BindingType.BT_ACTION, action := ACTION_FIRST_LINE, keystring := "" }, false) :=
  C9_default_multi_key 0 1 ":" actionKeys.reverse (defaultKeyBindings 0 1 ":").reverse
    (List.reverse_perm _) (List.reverse_perm _) (by decide) (by decide)

/-- C10: reverse lookup lists real default triggers.  `DefaultKeyBindings(a, v)`
is the list registered for `a` under `v` if there is one, otherwise the list
registered under `VIEW_ALL`, otherwise empty: it is `[PROMPT_TEXT]` for
`ACTION_PROMPT` in `VIEW_MAIN` and holds every `VIEW_ALL` sequence of an action
in every view.  Every sequence `k` of `DefaultKeyBindings(a, v)` resolves, on
a manager freshly built by `NewKeyBindingManager` in any iteration order, as
`Binding([v], k) =` the action binding that carries `a`, with
`isPrefix = false`; and a call of `DefaultKeyBindings` leaves the result of
every `Binding` call as it was.  `PROMPT_TEXT` is declared outside `src/`; it
is assumed not to be one of the sequences registered under `VIEW_ALL`. -/
theorem C10_default_key_bindings_are_triggers (VIEW_ALL VIEW_MAIN : ViewId)
    (PROMPT_TEXT : String)
    (o1 : List (String × Action)) (o2 : List (Action × List (ViewId × List String)))
    (h1 : o1.Perm actionKeys)
    (h2 : o2.Perm (defaultKeyBindings VIEW_ALL VIEW_MAIN PROMPT_TEXT))
    (hfresh : ∀ e ∈ wildcardDefaults, PROMPT_TEXT ≠ e.1) :
    (∀ (a : Action) (v : ViewId) (k : String),
      k ∈ DefaultKeyBindings VIEW_ALL VIEW_MAIN PROMPT_TEXT a v →
      (NewKeyBindingManager VIEW_ALL o1 o2).Binding VIEW_ALL [v] k =
        ({ bindingType := BindingType.BT_ACTION, action := a, keystring := "" }, false)) ∧
    DefaultKeyBindings VIEW_ALL VIEW_MAIN PROMPT_TEXT ACTION_PROMPT VIEW_MAIN = [PROMPT_TEXT] ∧
    (∀ e ∈ wildcardDefaults, ∀ v : ViewId,
      e.1 ∈ DefaultKeyBindings VIEW_ALL VIEW_MAIN PROMPT_TEXT e.2 v) ∧
    (∀ (a : Action) (v : ViewId) (m : KeyBindingManager) (h : ViewHierarchy) (s : String),
      (DefaultKeyBindingsCall VIEW_ALL VIEW_MAIN PROMPT_TEXT m a v).2.Binding VIEW_ALL h s =
        m.Binding VIEW_ALL h s) := by
  refine ⟨?_, defaultKeyBindings_prompt VIEW_ALL VIEW_MAIN PROMPT_TEXT,
    fun e he v => defaultKeyBindings_wildcard VIEW_ALL VIEW_MAIN PROMPT_TEXT v e he,
    fun a v m h s => rfl⟩
  intro a v k hk
  have hprompt := seeded_prompt VIEW_ALL VIEW_MAIN PROMPT_TEXT o1 h2 hfresh
  rcases mem_DefaultKeyBindings VIEW_ALL VIEW_MAIN PROMPT_TEXT a v k hk with hmem | hmem
  · rcases (mem_defaultInstallations_table _ _ _ _ _ _).mp hmem with
      ⟨hv, hkp, ha⟩ | ⟨_, hwd⟩
    · subst hv hkp ha
      exact binding_of_first_exact _ VIEW_ALL [v] k v _ [] [VIEW_ALL] rfl
        (by intro u hu; cases hu) hprompt
    · exact seeded_resolve_wildcard_default VIEW_ALL VIEW_MAIN PROMPT_TEXT h1 h2 k a hwd
        (hfresh (k, a) hwd) v
  · rcases (mem_defaultInstallations_table _ _ _ _ _ _).mp hmem with
      ⟨hv, hkp, ha⟩ | ⟨_, hwd⟩
    · subst hv hkp ha
      refine binding_via_wildcard _ VIEW_ALL v k _ hprompt ?_
      by_cases hvw : v = VIEW_ALL
      · right; rw [hvw]; exact hprompt
      · left
        exact seeded_other_view VIEW_ALL VIEW_ALL k h1 h2 v k hvw (Or.inl hvw)
    · exact seeded_resolve_wildcard_default VIEW_ALL VIEW_MAIN PROMPT_TEXT h1 h2 k a hwd
        (hfresh (k, a) hwd) v

/-- Witness of C10, with `VIEW_ALL = 0`, `VIEW_MAIN = 1`, `PROMPT_TEXT = ":"`:
the sequences listed for `ACTION_NEXT_VIEW` in view `1` are "<Tab>", "<C-w>w"
and "<C-w><C-w>", none is listed for `ACTION_PROMPT` in view `2`, and "<C-w>w"
triggers `ACTION_NEXT_VIEW` in view `1`. -/
theorem C10_default_key_bindings_are_triggers_witness :
    (∀ e ∈ wildcardDefaults, ":" ≠ e.1) ∧
    DefaultKeyBindings 0 1 ":" ACTION_NEXT_VIEW 1 = ["<Tab>", "<C-w>w", "<C-w><C-w>"] ∧
    DefaultKeyBindings 0 1 ":" ACTION_PROMPT 1 = [":"] ∧
    DefaultKeyBindings 0 1 ":" ACTION_PROMPT 2 = [] ∧
    (NewKeyBindingManager 0 actionKeys.reverse
        (defaultKeyBindings 0 1 ":").reverse).Binding 0 [1] "<C-w>w" =
      ({ bindingType := BindingType.BT_ACTION, action := ACTION_NEXT_VIEW, keystring := "" },
        false) :=
  ⟨by decide, by decide, by decide, by decide,
    (C10_default_key_bindings_are_triggers 0 1 ":" actionKeys.reverse
      (defaultKeyBindings 0 1 ":").reverse (List.reverse_perm _) (List.reverse_perm _)
      (by decide)).1 ACTION_NEXT_VIEW 1 "<C-w>w" (by decide)⟩

/-! ## Lemmas on the registry, on seeding orders and on the frame of an installation -/

theorem lookup_isSome_iff {β : Type} (l : List (String × β)) (name : String) :
    (l.lookup name).isSome = true ↔ name ∈ l.map Prod.fst := by
  induction l with
  | nil => simp
  | cons p ps ih =>
    obtain ⟨k, b⟩ := p
    rw [List.lookup_cons]
    by_cases hk : name = k
    · subst hk; simp
    · have h1 : (name == k) = false := by simpa using hk
      rw [h1]
      simp only [List.map_cons, List.mem_cons, hk, false_or]
      exact ih

theorem lookup_eq_some_of_mem {β : Type} (l : List (String × β)) (hnd : (l.map Prod.fst).Nodup)
    (name : String) (b : β) (hmem : (name, b) ∈ l) : l.lookup name = some b := by
  induction l with
  | nil => cases hmem
  | cons p ps ih =>
    obtain ⟨k, b1⟩ := p
    rw [List.lookup_cons]
    rw [List.map_cons, List.nodup_cons] at hnd
    rcases List.mem_cons.mp hmem with h | h
    · simp only [Prod.mk.injEq] at h
      obtain ⟨h1, h2⟩ := h
      subst h1 h2
      simp
    · have hne : name ≠ k := by
        intro e
        subst e
        exact hnd.1 (List.mem_map.mpr ⟨(name, b), h, rfl⟩)
      have h1 : (name == k) = false := by simpa using hne
      rw [h1]
      exact ih hnd.2 h

theorem findSome_congr_mem {β : Type} (f g : ViewId → Option β) (l : List ViewId)
    (h : ∀ u ∈ l, f u = g u) : l.findSome? f = l.findSome? g := by
  induction l with
  | nil => rfl
  | cons u rest ih =>
    rw [List.findSome?_cons, List.findSome?_cons, h u (List.mem_cons_self _ _),
      ih (fun w hw => h w (List.mem_cons_of_mem _ hw))]

theorem any_congr_mem (f g : ViewId → Bool) (l : List ViewId)
    (h : ∀ u ∈ l, f u = g u) : l.any f = l.any g := by
  induction l with
  | nil => rfl
  | cons u rest ih =>
    rw [List.any_cons, List.any_cons, h u (List.mem_cons_self _ _),
      ih (fun w hw => h w (List.mem_cons_of_mem _ hw))]

/-- Two managers that agree, on every scope of the scope order, on the binding
stored for `s` and on the presence of a longer key resolve `s` alike. -/
theorem binding_congr (m1 m2 : KeyBindingManager) (VIEW_ALL : ViewId) (h : ViewHierarchy)
    (s : String)
    (hs : ∀ u ∈ h ++ [VIEW_ALL], storedBinding m1 u s = storedBinding m2 u s)
    (hl : ∀ u ∈ h ++ [VIEW_ALL], hasLongerKey m1 u s = hasLongerKey m2 u s) :
    m1.Binding VIEW_ALL h s = m2.Binding VIEW_ALL h s := by
  rw [binding_eq_reference, binding_eq_reference, referenceResolve, referenceResolve,
    findSome_congr_mem _ _ _ hs, any_congr_mem _ _ _ hl]

theorem findSome_append_last {β : Type} (f : ViewId → Option β) (h : List ViewId) (x : ViewId)
    (b : β) (hx : f x = some b) (hh : ∀ u ∈ h, f u = none ∨ f u = some b) :
    (h ++ [x]).findSome? f = some b := by
  induction h with
  | nil => simp [List.findSome?_cons, hx]
  | cons u rest ih =>
    rw [List.cons_append, List.findSome?_cons]
    rcases hh u (List.mem_cons_self _ _) with hu | hu
    · rw [hu]; exact ih (fun w hw => hh w (List.mem_cons_of_mem _ hw))
    · rw [hu]

theorem seeded_stored_of_actionKey (VIEW_ALL : ViewId) {o1 : List (String × Action)}
    (h1 : o1.Perm actionKeys)
    {o2 t : List (Action × List (ViewId × List String))} (h2 : o2.Perm t)
    (v : ViewId) (k : String) (a : Action)
    (hD : ∀ a2, (v, k, a2) ∉ defaultInstallations t)
    (hmem : (v, k, a) ∈ actionKeyInstallations VIEW_ALL actionKeys)
    (huniq : ∀ a2, (v, k, a2) ∈ actionKeyInstallations VIEW_ALL actionKeys → a2 = a) :
    storedBinding (NewKeyBindingManager VIEW_ALL o1 o2) v k = some (NewActionBinding a) := by
  have hp2 := defaultInstallations_perm h2
  have hp1 := actionKeyInstallations_perm VIEW_ALL h1
  rw [newKeyBindingManager_eq,
    storedBinding_installAll_of_not_mem _ _ v k (fun a2 ha2 => hD a2 (hp2.mem_iff.mp ha2))]
  exact storedBinding_installAll_of_mem _ _ v k a (hp1.mem_iff.mpr hmem)
    (fun a2 ha2 => huniq a2 (hp1.mem_iff.mp ha2))

theorem seed_keys_nodup :
    (actionKeys.map Prod.fst ++ wildcardDefaults.map Prod.fst).Nodup := by
  decide

/-- The `(view, sequence)` pairs that `setDefaultKeyBindings` installs are
pairwise distinct when `PROMPT_TEXT` is none of the other sequences. -/
theorem seed_pairs_nodup (VIEW_ALL VIEW_MAIN : ViewId) (PROMPT_TEXT : String)
    (hnames : ∀ e ∈ actionKeys, PROMPT_TEXT ≠ e.1)
    (hkeys : ∀ e ∈ wildcardDefaults, PROMPT_TEXT ≠ e.1) :
    ((actionKeyInstallations VIEW_ALL actionKeys ++
        defaultInstallations (defaultKeyBindings VIEW_ALL VIEW_MAIN PROMPT_TEXT)).map
      (fun op => (op.1, op.2.1))).Nodup := by
  have hshape : (actionKeyInstallations VIEW_ALL actionKeys ++
        defaultInstallations (defaultKeyBindings VIEW_ALL VIEW_MAIN PROMPT_TEXT)).map
      (fun op => (op.1, op.2.1)) =
      (VIEW_ALL, ·) <$> (actionKeys.map Prod.fst) ++
        ((VIEW_MAIN, PROMPT_TEXT) :: ((VIEW_ALL, ·) <$> (wildcardDefaults.map Prod.fst))) := by
    rw [defaultInstallations_table]
    simp [actionKeyInstallations, Function.comp_def]
  rw [hshape]
  have hnd := seed_keys_nodup
  have hinj : Function.Injective (fun k : String => (VIEW_ALL, k)) := by
    intro x y hxy
    exact (Prod.mk.injEq _ _ _ _ ▸ hxy : VIEW_ALL = VIEW_ALL ∧ x = y).2
  have hall : ((VIEW_ALL, ·) <$> (actionKeys.map Prod.fst ++ wildcardDefaults.map Prod.fst)).Nodup :=
    hnd.map hinj
  simp only [List.map_eq_map, List.map_append] at hall ⊢
  rw [List.nodup_append] at hall ⊢
  obtain ⟨ha, hb, hdisj⟩ := hall
  refine ⟨ha, ?_, ?_⟩
  · rw [List.nodup_cons]
    refine ⟨?_, hb⟩
    intro hmem
    rcases List.mem_map.mp hmem with ⟨k, hk, hkeq⟩
    rcases List.mem_map.mp hk with ⟨e, he, hek⟩
    simp only [Prod.mk.injEq] at hkeq
    exact hkeys e he (by rw [hek]; exact hkeq.2.symm)
  · intro x hx1 hx2
    rcases List.mem_cons.mp hx2 with h | h
    · subst h
      rcases List.mem_map.mp hx1 with ⟨k, hk, hkeq⟩
      rcases List.mem_map.mp hk with ⟨e, he, hek⟩
      simp only [Prod.mk.injEq] at hkeq
      exact hnames e he (by rw [hek]; exact hkeq.2.symm)
    · exact hdisj hx1 h

theorem seed_functional (VIEW_ALL VIEW_MAIN : ViewId) (PROMPT_TEXT : String)
    (hnames : ∀ e ∈ actionKeys, PROMPT_TEXT ≠ e.1)
    (hkeys : ∀ e ∈ wildcardDefaults, PROMPT_TEXT ≠ e.1)
    (v : ViewId) (k : String) (a a2 : Action)
    (h1 : (v, k, a) ∈ actionKeyInstallations VIEW_ALL actionKeys ++
      defaultInstallations (defaultKeyBindings VIEW_ALL VIEW_MAIN PROMPT_TEXT))
    (h2 : (v, k, a2) ∈ actionKeyInstallations VIEW_ALL actionKeys ++
      defaultInstallations (defaultKeyBindings VIEW_ALL VIEW_MAIN PROMPT_TEXT)) :
    a = a2 := by
  have hinj := List.inj_on_of_nodup_map
    (seed_pairs_nodup VIEW_ALL VIEW_MAIN PROMPT_TEXT hnames hkeys) h1 h2 rfl
  simp only [Prod.mk.injEq] at hinj
  exact hinj.2.2

/-- On a freshly seeded manager every installed triple is stored as it was
installed, whatever the iteration order, when `PROMPT_TEXT` is none of the
other sequences. -/
theorem seeded_stored_of_installed (VIEW_ALL VIEW_MAIN : ViewId) (PROMPT_TEXT : String)
    {o1 : List (String × Action)} (h1 : o1.Perm actionKeys)
    {o2 : List (Action × List (ViewId × List String))}
    (h2 : o2.Perm (defaultKeyBindings VIEW_ALL VIEW_MAIN PROMPT_TEXT))
    (hnames : ∀ e ∈ actionKeys, PROMPT_TEXT ≠ e.1)
    (hkeys : ∀ e ∈ wildcardDefaults, PROMPT_TEXT ≠ e.1)
    (v : ViewId) (k : String) (a : Action)
    (hmem : (v, k, a) ∈ actionKeyInstallations VIEW_ALL actionKeys ++
      defaultInstallations (defaultKeyBindings VIEW_ALL VIEW_MAIN PROMPT_TEXT)) :
    storedBinding (NewKeyBindingManager VIEW_ALL o1 o2) v k = some (NewActionBinding a) := by
  have hfun := seed_functional VIEW_ALL VIEW_MAIN PROMPT_TEXT hnames hkeys v k
  by_cases hD : (v, k, a) ∈ defaultInstallations (defaultKeyBindings VIEW_ALL VIEW_MAIN PROMPT_TEXT)
  · exact seeded_stored_of_default VIEW_ALL o1 h2 v k a hD
      (fun a2 ha2 => hfun a2 a (List.mem_append_right _ ha2) hmem)
  · have hK : (v, k, a) ∈ actionKeyInstallations VIEW_ALL actionKeys := by
      rcases List.mem_append.mp hmem with h | h
      · exact h
      · exact absurd h hD
    refine seeded_stored_of_actionKey VIEW_ALL h1 h2 v k a ?_ hK
      (fun a2 ha2 => hfun a2 a (List.mem_append_left _ ha2) hmem)
    intro a2 ha2
    have := hfun a2 a (List.mem_append_right _ ha2) hmem
    subst this
    exact hD ha2

/-- The binding a freshly seeded manager stores for a pair does not depend on
the iteration order of the two tables. -/
theorem seeded_stored_order_free (VIEW_ALL VIEW_MAIN : ViewId) (PROMPT_TEXT : String)
    {o1 p1 : List (String × Action)} (h1 : o1.Perm actionKeys) (g1 : p1.Perm actionKeys)
    {o2 p2 : List (Action × List (ViewId × List String))}
    (h2 : o2.Perm (defaultKeyBindings VIEW_ALL VIEW_MAIN PROMPT_TEXT))
    (g2 : p2.Perm (defaultKeyBindings VIEW_ALL VIEW_MAIN PROMPT_TEXT))
    (hnames : ∀ e ∈ actionKeys, PROMPT_TEXT ≠ e.1)
    (hkeys : ∀ e ∈ wildcardDefaults, PROMPT_TEXT ≠ e.1)
    (v : ViewId) (k : String) :
    storedBinding (NewKeyBindingManager VIEW_ALL o1 o2) v k =
      storedBinding (NewKeyBindingManager VIEW_ALL p1 p2) v k := by
  by_cases hex : ∃ a, (v, k, a) ∈ actionKeyInstallations VIEW_ALL actionKeys ++
      defaultInstallations (defaultKeyBindings VIEW_ALL VIEW_MAIN PROMPT_TEXT)
  · obtain ⟨a, ha⟩ := hex
    rw [seeded_stored_of_installed VIEW_ALL VIEW_MAIN PROMPT_TEXT h1 h2 hnames hkeys v k a ha,
      seeded_stored_of_installed VIEW_ALL VIEW_MAIN PROMPT_TEXT g1 g2 hnames hkeys v k a ha]
  · have hD : ∀ a2, (v, k, a2) ∉
        defaultInstallations (defaultKeyBindings VIEW_ALL VIEW_MAIN PROMPT_TEXT) :=
      fun a2 ha2 => hex ⟨a2, List.mem_append_right _ ha2⟩
    have hK : ∀ a2, (v, k, a2) ∉ actionKeyInstallations VIEW_ALL actionKeys :=
      fun a2 ha2 => hex ⟨a2, List.mem_append_left _ ha2⟩
    rw [seeded_stored_none VIEW_ALL h1 h2 v k hD hK, seeded_stored_none VIEW_ALL g1 g2 v k hD hK]

theorem storedBinding_install_frame (m : KeyBindingManager) (v u : ViewId) (k s : String)
    (i : Installation) (hframe : u ≠ v ∨ s ≠ k) :
    storedBinding (m.install v k i) u s = storedBinding m u s := by
  rw [install_eq, storedBinding_withBinding]
  have hne : ¬ (u = v ∧ s = k) := by
    rintro ⟨h1, h2⟩
    rcases hframe with h | h
    · exact h h1
    · exact h h2
  rw [if_neg hne]

theorem hasLongerKey_install_frame (m : KeyBindingManager) (v u : ViewId) (k s : String)
    (i : Installation) (hframe : u ≠ v ∨ s.data.isPrefixOf k.data = false) :
    hasLongerKey (m.install v k i) u s = hasLongerKey m u s := by
  rw [install_eq, hasLongerKey_withBinding]
  rcases hframe with h | h
  · simp [h]
  · simp [strictlyExtends, h]

/-! ## The registry of symbolic action names -/

/-- C15: `isValidAction(name)` is true exactly for the symbolic names registered
in `actionKeys`; the registry pairs these names one-to-one with the `Action`
constants `ACTION_NONE .. ACTION_FULL_SCREEN_VIEW`; the only name it maps to
`ACTION_NONE` is "<grv-nop>", and a name that is not registered is mapped to no
action at all. -/
theorem C15_isValidAction_registry :
    (∀ name : String, isValidAction name = true ↔ name ∈ actionKeys.map Prod.fst) ∧
    (actionKeys.map Prod.fst).Nodup ∧
    (actionKeys.map Prod.snd).Nodup ∧
    (∀ a : Action, a ∈ actionKeys.map Prod.snd ↔
      (ACTION_NONE ≤ a ∧ a ≤ ACTION_FULL_SCREEN_VIEW)) ∧
    (∀ name : String, actionKeys.lookup name = some ACTION_NONE ↔ name = "<grv-nop>") ∧
    (∀ name : String, isValidAction name = false → actionKeys.lookup name = none) := by
  have hnd : (actionKeys.map Prod.fst).Nodup := by decide
  refine ⟨fun name => lookup_isSome_iff actionKeys name, hnd, by decide, ?_, ?_, ?_⟩
  · intro a
    constructor
    · intro ha
      revert a
      decide
    · rintro ⟨h0, h12⟩
      simp only [ACTION_NONE, ACTION_FULL_SCREEN_VIEW] at h0 h12
      interval_cases a <;> decide
  · intro name
    constructor
    · intro hl
      have hmem := mem_of_lookup_eq_some actionKeys name ACTION_NONE hl
      have hall : ∀ e ∈ actionKeys, e.2 = ACTION_NONE → e.1 = "<grv-nop>" := by decide
      exact hall (name, ACTION_NONE) hmem rfl
    · intro hn
      subst hn
      decide
  · intro name hv
    unfold isValidAction at hv
    cases hl : actionKeys.lookup name with
    | none => rfl
    | some a => rw [hl] at hv; cases hv

/-! ## Determinism of seeding and frame of an installation -/

/-- C16: seeding is deterministic.  When `PROMPT_TEXT` is none of the symbolic
names and none of the `VIEW_ALL` sequences, the `(view, sequence)` pairs that
`setDefaultKeyBindings` installs are pairwise distinct, so no pair is installed
with two actions; every iteration order of the two tables gives a manager with
the same `Binding(h, s)` for every `h` and `s`; every installed triple
`(v, k, a)` resolves as `Binding([v], k) = (action a, false)`; and
"<grv-exit>" resolves to `ACTION_EXIT` under every hierarchy. -/
theorem C16_seeding_deterministic (VIEW_ALL VIEW_MAIN : ViewId) (PROMPT_TEXT : String)
    (hnames : ∀ e ∈ actionKeys, PROMPT_TEXT ≠ e.1)
    (hkeys : ∀ e ∈ wildcardDefaults, PROMPT_TEXT ≠ e.1) :
    ((actionKeyInstallations VIEW_ALL actionKeys ++
        defaultInstallations (defaultKeyBindings VIEW_ALL VIEW_MAIN PROMPT_TEXT)).map
      (fun op => (op.1, op.2.1))).Nodup ∧
    (∀ (v : ViewId) (k : String) (a a2 : Action),
      (v, k, a) ∈ actionKeyInstallations VIEW_ALL actionKeys ++
        defaultInstallations (defaultKeyBindings VIEW_ALL VIEW_MAIN PROMPT_TEXT) →
      (v, k, a2) ∈ actionKeyInstallations VIEW_ALL actionKeys ++
        defaultInstallations (defaultKeyBindings VIEW_ALL VIEW_MAIN PROMPT_TEXT) →
      a = a2) ∧
    (∀ (o1 p1 : List (String × Action)) (o2 p2 : List (Action × List (ViewId × List String))),
      o1.Perm actionKeys → p1.Perm actionKeys →
      o2.Perm (defaultKeyBindings VIEW_ALL VIEW_MAIN PROMPT_TEXT) →
      p2.Perm (defaultKeyBindings VIEW_ALL VIEW_MAIN PROMPT_TEXT) →
      ∀ (h : ViewHierarchy) (s : String),
        (NewKeyBindingManager VIEW_ALL o1 o2).Binding VIEW_ALL h s =
          (NewKeyBindingManager VIEW_ALL p1 p2).Binding VIEW_ALL h s) ∧
    (∀ (o1 : List (String × Action)) (o2 : List (Action × List (ViewId × List String))),
      o1.Perm actionKeys → o2.Perm (defaultKeyBindings VIEW_ALL VIEW_MAIN PROMPT_TEXT) →
      ∀ (v : ViewId) (k : String) (a : Action),
        (v, k, a) ∈ actionKeyInstallations VIEW_ALL actionKeys ++
          defaultInstallations (defaultKeyBindings VIEW_ALL VIEW_MAIN PROMPT_TEXT) →
        (NewKeyBindingManager VIEW_ALL o1 o2).Binding VIEW_ALL [v] k =
          ({ bindingType := BindingType.BT_ACTION, action := a, keystring := "" }, false)) ∧
    (∀ (o1 : List (String × Action)) (o2 : List (Action × List (ViewId × List String))),
      o1.Perm actionKeys → o2.Perm (defaultKeyBindings VIEW_ALL VIEW_MAIN PROMPT_TEXT) →
      ∀ h : ViewHierarchy,
        (NewKeyBindingManager VIEW_ALL o1 o2).Binding VIEW_ALL h "<grv-exit>" =
          ({ bindingType := BindingType.BT_ACTION, action := ACTION_EXIT, keystring := "" }, false)) := by
  refine ⟨seed_pairs_nodup VIEW_ALL VIEW_MAIN PROMPT_TEXT hnames hkeys,
    seed_functional VIEW_ALL VIEW_MAIN PROMPT_TEXT hnames hkeys, ?_, ?_, ?_⟩
  · intro o1 p1 o2 p2 h1 g1 h2 g2 h s
    refine binding_congr _ _ VIEW_ALL h s ?_ ?_
    · intro u _
      exact seeded_stored_order_free VIEW_ALL VIEW_MAIN PROMPT_TEXT h1 g1 h2 g2 hnames hkeys u s
    · intro u _
      rw [seeded_hasLongerKey VIEW_ALL h1 h2, seeded_hasLongerKey VIEW_ALL g1 g2]
  · intro o1 o2 h1 h2 v k a hmem
    exact binding_of_first_exact _ VIEW_ALL [v] k v _ [] [VIEW_ALL] rfl
      (by intro u hu; cases hu)
      (seeded_stored_of_installed VIEW_ALL VIEW_MAIN PROMPT_TEXT h1 h2 hnames hkeys v k a hmem)
  · intro o1 o2 h1 h2 h
    have hexit : ("<grv-exit>", ACTION_EXIT) ∈ actionKeys := by decide
    have hW := seeded_stored_of_installed VIEW_ALL VIEW_MAIN PROMPT_TEXT h1 h2 hnames hkeys
      VIEW_ALL "<grv-exit>" ACTION_EXIT
      (List.mem_append_left _ ((mem_actionKeyInstallations _ _ _ _).mpr ⟨rfl, hexit⟩))
    have hfind := findSome_append_last
      (fun u => storedBinding (NewKeyBindingManager VIEW_ALL o1 o2) u "<grv-exit>")
      h VIEW_ALL (NewActionBinding ACTION_EXIT) hW
      (by
        intro u _
        by_cases hu : u = VIEW_ALL
        · right; rw [hu]; exact hW
        · left
          exact seeded_other_view VIEW_ALL VIEW_MAIN PROMPT_TEXT h1 h2 u "<grv-exit>" hu
            (Or.inr (fun e => hnames _ hexit e.symm)))
    rw [binding_eq_reference, referenceResolve, hfind]
    rfl

/-- Witness of C16, with `VIEW_ALL = 0`, `VIEW_MAIN = 1`, `PROMPT_TEXT = ":"`:
the source order and the reversed order of both tables resolve "<C-w>" alike,
and "<grv-exit>" resolves to `ACTION_EXIT` through the hierarchy `[5, 1]`. -/
theorem C16_seeding_deterministic_witness :
    (∀ e ∈ actionKeys, ":" ≠ e.1) ∧ (∀ e ∈ wildcardDefaults, ":" ≠ e.1) ∧
    (NewKeyBindingManager 0 actionKeys (defaultKeyBindings 0 1 ":")).Binding 0 [1] "<C-w>" =
      (NewKeyBindingManager 0 actionKeys.reverse
        (defaultKeyBindings 0 1 ":").reverse).Binding 0 [1] "<C-w>" ∧
    (NewKeyBindingManager 0 actionKeys.reverse
        (defaultKeyBindings 0 1 ":").reverse).Binding 0 [5, 1] "<grv-exit>" =
      ({ bindingType := BindingType.BT_ACTION, action := ACTION_EXIT, keystring := "" }, false) :=
  have hthm := C16_seeding_deterministic 0 1 ":" (by decide) (by decide)
  ⟨by decide, by decide,
    hthm.2.2.1 actionKeys actionKeys.reverse (defaultKeyBindings 0 1 ":")
      (defaultKeyBindings 0 1 ":").reverse (List.Perm.refl _) (List.reverse_perm _)
      (List.Perm.refl _) (List.reverse_perm _) [1] "<C-w>",
    hthm.2.2.2.2 actionKeys.reverse (defaultKeyBindings 0 1 ":").reverse
      (List.reverse_perm _) (List.reverse_perm _) [5, 1]⟩

/-- C17: frame of a binding installation.  Installing a binding for `(v, k)`
with `SetActionBinding` or `SetKeystringBinding` leaves `Binding(h, s)` exactly
as it was, binding and `isPrefix` flag, unless `v` occurs in `h ++ [VIEW_ALL]`
and `s` is a prefix of `k`; this includes installations that create the store
of `v`. -/
theorem C17_install_frame (m : KeyBindingManager) (VIEW_ALL : ViewId) (v : ViewId)
    (k : String) (i : Installation) (h : ViewHierarchy) (s : String)
    (hframe : v ∉ h ++ [VIEW_ALL] ∨ s.data.isPrefixOf k.data = false) :
    (m.install v k i).Binding VIEW_ALL h s = m.Binding VIEW_ALL h s := by
  refine binding_congr _ _ VIEW_ALL h s ?_ ?_
  · intro u hu
    refine storedBinding_install_frame m v u k s i ?_
    rcases hframe with hv | hp
    · left; intro e; subst e; exact hv hu
    · right; exact fun e => not_isPrefixOf_ne k s hp e.symm
  · intro u hu
    refine hasLongerKey_install_frame m v u k s i ?_
    rcases hframe with hv | hp
    · left; intro e; subst e; exact hv hu
    · right; exact hp

/-- Witness of C17: installing "gg" in view `2`, whose store does not exist
yet, changes neither the resolution of "g" through `[1]` (view `2` is not a
scope) nor the resolution of "x" through `[2]` ("x" is no prefix of "gg"). -/
theorem C17_install_frame_witness :
    crossViewManager.bindings 2 = none ∧
    (2 : ViewId) ∉ [1] ++ [(0 : ViewId)] ∧
    (crossViewManager.install 2 "gg" (Installation.action ACTION_SELECT)).Binding 0 [1] "g" =
      crossViewManager.Binding 0 [1] "g" ∧
    "x".data.isPrefixOf "gg".data = false ∧
    (crossViewManager.install 2 "gg" (Installation.keystring "j")).Binding 0 [2] "x" =
      crossViewManager.Binding 0 [2] "x" :=
  ⟨rfl, by decide,
    C17_install_frame crossViewManager 0 2 "gg" (Installation.action ACTION_SELECT) [1] "g"
      (Or.inl (by decide)),
    by decide,
    C17_install_frame crossViewManager 0 2 "gg" (Installation.keystring "j") [2] "x"
      (Or.inr (by decide))⟩

/-! ## Lemmas on the shape of the table -/

theorem foldl_invariant {α β : Type} (P : β → Prop) (f : β → α → β) (l : List α) (b : β)
    (hb : P b) (hstep : ∀ b1 a, P b1 → P (f b1 a)) : P (l.foldl f b) := by
  induction l generalizing b with
  | nil => exact hb
  | cons a rest ih => exact ih (f b a) (hstep b a hb)

theorem hasShape_new {Config : Type} (cols : Nat) (config : Config) :
    (NewTableFormatter cols config).hasShape cols := by
  refine ⟨by simp [NewTableFormatter], ?_⟩
  intro row hrow
  simp [NewTableFormatter] at hrow

theorem hasShape_resize {Config : Type} (tf : TableFormatter Config) (cols newRows : Nat)
    (h : tf.hasShape cols) : (tf.Resize newRows).hasShape cols := by
  unfold TableFormatter.Resize
  by_cases hr : tf.Rows = newRows
  · rw [if_pos hr]; exact h
  · rw [if_neg hr]
    refine ⟨h.1, ?_⟩
    intro row hrow
    simp only at hrow
    rw [(List.mem_replicate.mp hrow).2, List.length_replicate]
    exact h.1

theorem hasShape_clear {Config : Type} (tf : TableFormatter Config) (cols : Nat)
    (h : tf.hasShape cols) : tf.Clear.hasShape cols := by
  refine ⟨h.1, ?_⟩
  intro row hrow
  simp only [TableFormatter.Clear, List.mem_map] at hrow
  obtain ⟨row0, h0, hmap⟩ := hrow
  rw [← hmap, List.length_map]
  exact h.2 row0 h0

theorem hasShape_setCellAt {Config : Type} (tf : TableFormatter Config) (cols r c : Nat)
    (cell : tableCell) (h : tf.hasShape cols) : (tf.setCellAt r c cell).hasShape cols := by
  refine ⟨h.1, ?_⟩
  intro row hrow
  simp only [TableFormatter.setCellAt] at hrow
  by_cases hr : r < tf.cells.length
  · rcases List.mem_or_eq_of_mem_set hrow with hmem | heq
    · exact h.2 row hmem
    · rw [heq, List.length_set, List.getD_eq_getElem _ _ hr]
      exact h.2 _ (List.getElem_mem _)
  · rw [List.set_eq_of_length_le (Nat.le_of_not_lt hr)] at hrow
    exact h.2 row hrow

theorem hasShape_setCellWithStyle {Config : Type} (tf : TableFormatter Config)
    (cols r c : Nat) (style : ThemeComponentID) (text : String) (h : tf.hasShape cols) :
    (tf.SetCellWithStyle r c style text).1.hasShape cols := by
  unfold TableFormatter.SetCellWithStyle
  split
  · exact h
  · exact hasShape_setCellAt tf cols r c _ h

theorem hasShape_appendToCellWithStyle {Config : Type} (tf : TableFormatter Config)
    (cols r c : Nat) (style : ThemeComponentID) (text : String) (h : tf.hasShape cols) :
    (tf.AppendToCellWithStyle r c style text).1.hasShape cols := by
  unfold TableFormatter.AppendToCellWithStyle
  split
  · exact h
  · exact hasShape_setCellAt tf cols r c _ h

theorem widenColumn_frame {Config : Type}
    (render : Char → Nat → Config → List RenderedCodePoint) (colIndex column : Nat)
    (tf : TableFormatter Config) (rowIndex : Nat) :
    (tf.widenColumn render colIndex column rowIndex).cells = tf.cells ∧
    (tf.widenColumn render colIndex column rowIndex).maxColWidths.length =
      tf.maxColWidths.length ∧
    (tf.widenColumn render colIndex column rowIndex).config = tf.config := by
  unfold TableFormatter.widenColumn
  simp only
  split
  · exact ⟨rfl, by simp, rfl⟩
  · exact ⟨rfl, rfl, rfl⟩

theorem determineMaxColWidth_frame {Config : Type}
    (render : Char → Nat → Config → List RenderedCodePoint) (border : Bool)
    (tf : TableFormatter Config) (colIndex : Nat) :
    (tf.determineMaxColWidth render border colIndex).cells = tf.cells ∧
    (tf.determineMaxColWidth render border colIndex).maxColWidths.length =
      tf.maxColWidths.length ∧
    (tf.determineMaxColWidth render border colIndex).config = tf.config := by
  unfold TableFormatter.determineMaxColWidth
  refine foldl_invariant
    (fun t : TableFormatter Config => t.cells = tf.cells ∧
      t.maxColWidths.length = tf.maxColWidths.length ∧ t.config = tf.config)
    _ _ tf ⟨rfl, rfl, rfl⟩ ?_
  intro t2 rowIndex h2
  have h := widenColumn_frame render colIndex (tf.columnBefore border colIndex) t2 rowIndex
  exact ⟨h.1.trans h2.1, h.2.1.trans h2.2.1, h.2.2.trans h2.2.2⟩

/-- What `determineMaxColWidths` leaves as it was: the cells, the number of
column widths and the configuration. -/
theorem determineMaxColWidths_frame {Config : Type}
    (render : Char → Nat → Config → List RenderedCodePoint) (tf : TableFormatter Config)
    (border : Bool) :
    (tf.determineMaxColWidths render border).cells = tf.cells ∧
    (tf.determineMaxColWidths render border).maxColWidths.length = tf.maxColWidths.length ∧
    (tf.determineMaxColWidths render border).config = tf.config := by
  unfold TableFormatter.determineMaxColWidths
  refine foldl_invariant
    (fun t : TableFormatter Config => t.cells = tf.cells ∧
      t.maxColWidths.length = tf.maxColWidths.length ∧ t.config = tf.config)
    _ _ tf ⟨rfl, rfl, rfl⟩ ?_
  intro t1 colIndex h1
  have h := determineMaxColWidth_frame render border t1 colIndex
  exact ⟨h.1.trans h1.1, h.2.1.trans h1.2.1, h.2.2.trans h1.2.2⟩

theorem padColumns_frame {Config : Type}
    (render : Char → Nat → Config → List RenderedCodePoint) (CmpNone : ThemeComponentID) (allocLimit : Nat)
    (rowIndex : Nat) (colIndexes : List Nat) (column : Nat) (tf : TableFormatter Config)
    (res : TableFormatter Config × Option String)
    (hres : TableFormatter.padColumns render CmpNone allocLimit rowIndex colIndexes column tf = some res) :
    res.1.maxColWidths = tf.maxColWidths ∧ res.1.config = tf.config ∧
    res.1.cells.length = tf.cells.length ∧
    ∀ cols, tf.hasShape cols → res.1.hasShape cols := by
  induction colIndexes generalizing column tf with
  | nil =>
    simp only [TableFormatter.padColumns, Option.some.injEq] at hres
    subst hres
    exact ⟨rfl, rfl, rfl, fun _ h => h⟩
  | cons colIndex rest ih =>
    simp only [TableFormatter.padColumns] at hres
    split at hres
    · split at hres
      · cases hres
      · rename_i spaces _
        have happ : ∀ t : TableFormatter Config,
            t = (tf.AppendToCell CmpNone rowIndex colIndex spaces).1 →
            t.maxColWidths = tf.maxColWidths ∧ t.config = tf.config ∧
            t.cells.length = tf.cells.length ∧ ∀ cols, tf.hasShape cols → t.hasShape cols := by
          intro t ht
          subst ht
          refine ⟨?_, ?_, ?_, fun cols h =>
            hasShape_appendToCellWithStyle tf cols rowIndex colIndex CmpNone spaces h⟩
          · unfold TableFormatter.AppendToCell TableFormatter.AppendToCellWithStyle
            split <;> rfl
          · unfold TableFormatter.AppendToCell TableFormatter.AppendToCellWithStyle
            split <;> rfl
          · unfold TableFormatter.AppendToCell TableFormatter.AppendToCellWithStyle
            split
            · rfl
            · simp [TableFormatter.setCellAt]
        split at hres
        · rename_i tf1 err heq
          simp only [Option.some.injEq] at hres
          subst hres
          exact happ tf1 (by rw [heq])
        · rename_i tf1 heq
          have h1 := happ tf1 (by rw [heq])
          have h2 := ih _ tf1 hres
          exact ⟨h2.1.trans h1.1, h2.2.1.trans h1.2.1, h2.2.2.1.trans h1.2.2.1,
            fun cols h => h2.2.2.2 cols (h1.2.2.2 cols h)⟩
    · exact ih _ tf hres

theorem padRows_frame {Config : Type}
    (render : Char → Nat → Config → List RenderedCodePoint) (CmpNone : ThemeComponentID) (allocLimit : Nat)
    (border : Bool) (rowIndexes : List Nat) (tf : TableFormatter Config)
    (res : TableFormatter Config × Option String)
    (hres : TableFormatter.padRows render CmpNone allocLimit border rowIndexes tf = some res) :
    res.1.maxColWidths = tf.maxColWidths ∧ res.1.config = tf.config ∧
    res.1.cells.length = tf.cells.length ∧
    ∀ cols, tf.hasShape cols → res.1.hasShape cols := by
  induction rowIndexes generalizing tf with
  | nil =>
    simp only [TableFormatter.padRows, Option.some.injEq] at hres
    subst hres
    exact ⟨rfl, rfl, rfl, fun _ h => h⟩
  | cons rowIndex rest ih =>
    simp only [TableFormatter.padRows] at hres
    split at hres
    · cases hres
    · rename_i tf1 err heq
      simp only [Option.some.injEq] at hres
      subst hres
      exact padColumns_frame render CmpNone allocLimit rowIndex _ _ tf _ heq
    · rename_i tf1 heq
      have h1 := padColumns_frame render CmpNone allocLimit rowIndex _ _ tf _ heq
      have h2 := ih tf1 hres
      exact ⟨h2.1.trans h1.1, h2.2.1.trans h1.2.1, h2.2.2.1.trans h1.2.2.1,
        fun cols h => h2.2.2.2 cols (h1.2.2.2 cols h)⟩

theorem hasShape_determineMaxColWidths {Config : Type}
    (render : Char → Nat → Config → List RenderedCodePoint) (tf : TableFormatter Config)
    (border : Bool) (cols : Nat) (h : tf.hasShape cols) :
    (tf.determineMaxColWidths render border).hasShape cols := by
  have hf := determineMaxColWidths_frame render tf border
  refine ⟨hf.2.1.trans h.1, ?_⟩
  rw [hf.1]
  exact h.2

theorem hasShape_step {Config : Type}
    (render : Char → Nat → Config → List RenderedCodePoint) (CmpNone : ThemeComponentID) (allocLimit : Nat)
    (tf tf1 : TableFormatter Config) (op : TableOp) (cols : Nat) (h : tf.hasShape cols)
    (hstep : tf.step render CmpNone allocLimit op = some tf1) : tf1.hasShape cols := by
  cases op with
  | resize newRows =>
    simp only [TableFormatter.step, Option.some.injEq] at hstep
    subst hstep; exact hasShape_resize tf cols newRows h
  | clear =>
    simp only [TableFormatter.step, Option.some.injEq] at hstep
    subst hstep; exact hasShape_clear tf cols h
  | setCellWithStyle r c style text =>
    simp only [TableFormatter.step, Option.some.injEq] at hstep
    subst hstep; exact hasShape_setCellWithStyle tf cols r c style text h
  | appendToCellWithStyle r c style text =>
    simp only [TableFormatter.step, Option.some.injEq] at hstep
    subst hstep; exact hasShape_appendToCellWithStyle tf cols r c style text h
  | padCells border =>
    simp only [TableFormatter.step, Option.map_eq_some'] at hstep
    obtain ⟨res, hres, hfst⟩ := hstep
    subst hfst
    unfold TableFormatter.PadCells at hres
    exact (padRows_frame render CmpNone allocLimit border _ _ res hres).2.2.2 cols
      (hasShape_determineMaxColWidths render tf border cols h)

/-- Every state reached from `NewTableFormatter(cols, config)` has `cols`
column widths and `cols` cells in every row. -/
theorem hasShape_run {Config : Type}
    (render : Char → Nat → Config → List RenderedCodePoint) (CmpNone : ThemeComponentID) (allocLimit : Nat)
    (ops : List TableOp) (tf0 tf : TableFormatter Config) (cols : Nat)
    (h : tf0.hasShape cols)
    (hrun : TableFormatter.run render CmpNone allocLimit ops tf0 = some tf) : tf.hasShape cols := by
  induction ops generalizing tf0 with
  | nil =>
    simp only [TableFormatter.run, Option.some.injEq] at hrun
    subst hrun; exact h
  | cons op rest ih =>
    simp only [TableFormatter.run] at hrun
    split at hrun
    · cases hrun
    · rename_i tf1 hstep
      exact ih tf1 (hasShape_step render CmpNone allocLimit tf0 tf1 op cols h hstep) hrun

theorem cols_of_hasShape {Config : Type} (tf : TableFormatter Config) (cols : Nat)
    (h : tf.hasShape cols) :
    (0 < tf.Rows → tf.Cols = cols) ∧ (tf.Rows = 0 → tf.Cols = 0) := by
  unfold TableFormatter.Cols
  constructor
  · intro hpos
    rw [if_pos hpos]
    unfold TableFormatter.Rows at hpos
    rw [List.getD_eq_getElem _ _ hpos]
    exact h.2 _ (List.getElem_mem _)
  · intro hzero
    rw [if_neg (by omega)]

theorem row_of_hasShape {Config : Type} (tf : TableFormatter Config) (cols r : Nat)
    (h : tf.hasShape cols) (hr : r < tf.Rows) :
    ∃ row, tf.cells[r]? = some row ∧ row.length = cols := by
  unfold TableFormatter.Rows at hr
  exact ⟨tf.cells[r], List.getElem?_eq_getElem hr, h.2 _ (List.getElem_mem _)⟩

theorem cellOf_setCellAt {Config : Type} (tf : TableFormatter Config) (r c : Nat)
    (cell : tableCell) (row : List tableCell) (hrow : tf.cells[r]? = some row)
    (hc : c < row.length) (r2 c2 : Nat) :
    (tf.setCellAt r c cell).cellOf r2 c2 =
      if r2 = r ∧ c2 = c then some cell else tf.cellOf r2 c2 := by
  have hr : r < tf.cells.length := by
    by_contra hge
    rw [List.getElem?_eq_none (Nat.le_of_not_lt hge)] at hrow
    cases hrow
  have hget : tf.cells.getD r [] = row := by
    rw [List.getD_eq_getElem?_getD, hrow]; rfl
  unfold TableFormatter.cellOf TableFormatter.setCellAt
  simp only [hget, List.getElem?_set]
  by_cases h1 : r = r2
  · subst h1
    simp only [if_true, hr, Option.bind, true_and, hrow, List.getElem?_set]
    by_cases h2 : c = c2
    · subst h2; simp [hc]
    · have h3 : ¬ c2 = c := fun e => h2 e.symm
      simp [h2, h3]
  · have h3 : ¬ r2 = r := fun e => h1 e.symm
    simp [h1, h3]

theorem cellAt_of_cellOf {Config : Type} (tf : TableFormatter Config) (r c : Nat)
    (cell : tableCell) (h : tf.cellOf r c = some cell) : tf.cellAt r c = cell := by
  unfold TableFormatter.cellOf at h
  unfold TableFormatter.cellAt
  cases hrow : tf.cells[r]? with
  | none => rw [hrow] at h; cases h
  | some row =>
    rw [hrow] at h
    simp only [Option.bind] at h
    simp only [List.getD_eq_getElem?_getD, hrow, Option.getD_some, h]

/-- In a state of the right shape the guard of `SetCellWithStyle` and
`AppendToCellWithStyle` puts both indices in range. -/
theorem guard_in_range {Config : Type} (tf : TableFormatter Config) (cols r c : Nat)
    (h : tf.hasShape cols) (hg : r < tf.Rows ∧ c < tf.Cols) :
    ∃ row, tf.cells[r]? = some row ∧ c < row.length := by
  obtain ⟨row, hrow, hlen⟩ := row_of_hasShape tf cols r h hg.1
  have hcols := (cols_of_hasShape tf cols h).1 (Nat.lt_of_le_of_lt (Nat.zero_le _) hg.1)
  exact ⟨row, hrow, by rw [hlen, ← hcols]; exact hg.2⟩

theorem cols_setCellAt {Config : Type} (tf : TableFormatter Config) (cols r c : Nat)
    (cell : tableCell) (h : tf.hasShape cols) :
    (tf.setCellAt r c cell).Rows = tf.Rows ∧ (tf.setCellAt r c cell).Cols = tf.Cols := by
  have hrows : (tf.setCellAt r c cell).Rows = tf.Rows := by
    simp [TableFormatter.Rows, TableFormatter.setCellAt]
  refine ⟨hrows, ?_⟩
  have h2 := hasShape_setCellAt tf cols r c cell h
  by_cases hpos : 0 < tf.Rows
  · rw [(cols_of_hasShape tf cols h).1 hpos,
      (cols_of_hasShape _ cols h2).1 (by rw [hrows]; exact hpos)]
  · rw [(cols_of_hasShape tf cols h).2 (by omega),
      (cols_of_hasShape _ cols h2).2 (by rw [hrows]; omega)]

/-! ## The table formatter: dimensions, cells and row strings -/

/-- Counterexample to C11 as stated: right after `NewTableFormatter(3, config)`
and after `Resize(2)` followed by `Resize(0)`, `Cols()` is `0`, not `3`. -/
theorem C11_counterexample :
    (NewTableFormatter 3 ()).Cols = 0 ∧
    (TableFormatter.run exampleRender 0 exampleAllocLimit [] (NewTableFormatter 3 ())).map TableFormatter.Cols
      ≠ some 3 ∧
    (TableFormatter.run exampleRender 0 exampleAllocLimit [TableOp.resize 2, TableOp.resize 0]
      (NewTableFormatter 3 ())).map TableFormatter.Cols ≠ some 3 := by
  decide

/-- C11 (amended): in every state reached from `NewTableFormatter(cols, config)`
by `Resize`, `Clear`, `SetCellWithStyle`, `AppendToCellWithStyle` and `PadCells`
calls, `Cols() = cols` when the table has at least one row, and `Cols() = 0`
when it has none (as right after construction and after `Resize(0)`). -/
theorem C11_cols_when_rows {Config : Type}
    (DetermineRenderedCodePoint : Char → Nat → Config → List RenderedCodePoint)
    (CmpNone : ThemeComponentID) (allocLimit : Nat) (cols : Nat) (config : Config) (ops : List TableOp)
    (tf : TableFormatter Config)
    (hreach : TableFormatter.run DetermineRenderedCodePoint CmpNone allocLimit ops
      (NewTableFormatter cols config) = some tf) :
    (0 < tf.Rows → tf.Cols = cols) ∧ (tf.Rows = 0 → tf.Cols = 0) :=
  cols_of_hasShape tf cols
    (hasShape_run DetermineRenderedCodePoint CmpNone allocLimit ops _ tf cols (hasShape_new cols config)
      hreach)

/-- Witness of C11 (amended): a table for three columns resized to two rows,
filled and padded has three columns; resized to no rows it has none. -/
theorem C11_cols_when_rows_witness :
    TableFormatter.run exampleRender 0 exampleAllocLimit
        [TableOp.resize 2, TableOp.setCellWithStyle 1 2 0 "x", TableOp.padCells true]
        (NewTableFormatter 3 ()) = some paddedTable ∧
    (0 < paddedTable.Rows → paddedTable.Cols = 3) ∧
    TableFormatter.run exampleRender 0 exampleAllocLimit
        [TableOp.resize 2, TableOp.setCellWithStyle 1 2 0 "x", TableOp.padCells true,
          TableOp.resize 0]
        (NewTableFormatter 3 ()) = some (paddedTable.Resize 0) ∧
    ((paddedTable.Resize 0).Rows = 0 → (paddedTable.Resize 0).Cols = 0) :=
  ⟨rfl,
    (C11_cols_when_rows exampleRender 0 exampleAllocLimit 3 ()
      [TableOp.resize 2, TableOp.setCellWithStyle 1 2 0 "x", TableOp.padCells true]
      paddedTable rfl).1,
    rfl,
    (C11_cols_when_rows exampleRender 0 exampleAllocLimit 3 ()
      [TableOp.resize 2, TableOp.setCellWithStyle 1 2 0 "x", TableOp.padCells true,
        TableOp.resize 0] (paddedTable.Resize 0) rfl).2⟩

/-- C12: `SetCellWithStyle` (and `SetCell`, which is `SetCellWithStyle` with
the style `CmpNone`) returns an error exactly when not
`rowIndex < Rows() && colIndex < Cols()`; on an error the formatter is
unchanged; on success the cell at `(rowIndex, colIndex)` holds exactly one text
entry, the formatted text with the given style, and every other cell, every
`maxColWidths` entry, the configuration and the dimensions are unchanged. -/
theorem C12_setCellWithStyle {Config : Type}
    (DetermineRenderedCodePoint : Char → Nat → Config → List RenderedCodePoint)
    (CmpNone : ThemeComponentID) (allocLimit : Nat) (cols : Nat) (config : Config) (ops : List TableOp)
    (tf : TableFormatter Config)
    (hreach : TableFormatter.run DetermineRenderedCodePoint CmpNone allocLimit ops
      (NewTableFormatter cols config) = some tf)
    (rowIndex colIndex : Nat) (themeComponentID : ThemeComponentID) (text : String) :
    ((tf.SetCellWithStyle rowIndex colIndex themeComponentID text).2.isSome = true ↔
      ¬ (rowIndex < tf.Rows ∧ colIndex < tf.Cols)) ∧
    ((tf.SetCellWithStyle rowIndex colIndex themeComponentID text).2.isSome = true →
      (tf.SetCellWithStyle rowIndex colIndex themeComponentID text).1 = tf) ∧
    ((tf.SetCellWithStyle rowIndex colIndex themeComponentID text).2 = none →
      (tf.SetCellWithStyle rowIndex colIndex themeComponentID text).1.cellOf rowIndex colIndex =
        some { textEntries := [{ text := text, themeComponentID := themeComponentID }] } ∧
      (∀ r2 c2, (r2 ≠ rowIndex ∨ c2 ≠ colIndex) →
        (tf.SetCellWithStyle rowIndex colIndex themeComponentID text).1.cellOf r2 c2 =
          tf.cellOf r2 c2) ∧
      (tf.SetCellWithStyle rowIndex colIndex themeComponentID text).1.maxColWidths =
        tf.maxColWidths ∧
      (tf.SetCellWithStyle rowIndex colIndex themeComponentID text).1.config = tf.config ∧
      (tf.SetCellWithStyle rowIndex colIndex themeComponentID text).1.Rows = tf.Rows ∧
      (tf.SetCellWithStyle rowIndex colIndex themeComponentID text).1.Cols = tf.Cols) ∧
    tf.SetCell CmpNone rowIndex colIndex text =
      tf.SetCellWithStyle rowIndex colIndex CmpNone text := by
  have hshape := hasShape_run DetermineRenderedCodePoint CmpNone allocLimit ops _ tf cols
    (hasShape_new cols config) hreach
  refine ⟨?_, ?_, ?_, rfl⟩
  · unfold TableFormatter.SetCellWithStyle
    by_cases hg : rowIndex < tf.Rows ∧ colIndex < tf.Cols
    · simp [hg]
    · simp [hg]
  · unfold TableFormatter.SetCellWithStyle
    by_cases hg : rowIndex < tf.Rows ∧ colIndex < tf.Cols
    · simp [hg]
    · simp [hg]
  · unfold TableFormatter.SetCellWithStyle
    by_cases hg : rowIndex < tf.Rows ∧ colIndex < tf.Cols
    · intro _
      rw [if_neg (not_not.mpr hg)]
      obtain ⟨row, hrow, hc⟩ := guard_in_range tf cols rowIndex colIndex hshape hg
      have hcell := cellOf_setCellAt tf rowIndex colIndex
        { textEntries := [{ text := text, themeComponentID := themeComponentID }] } row hrow hc
      have hdim := cols_setCellAt tf cols rowIndex colIndex
        { textEntries := [{ text := text, themeComponentID := themeComponentID }] } hshape
      refine ⟨?_, ?_, rfl, rfl, hdim.1, hdim.2⟩
      · rw [hcell]; simp
      · intro r2 c2 hne
        rw [hcell]
        have : ¬ (r2 = rowIndex ∧ c2 = colIndex) := by
          rintro ⟨h1, h2⟩
          rcases hne with h | h
          · exact h h1
          · exact h h2
        rw [if_neg this]
    · intro herr
      rw [if_pos hg] at herr
      cases herr

/-- Witness of C12 on the table of `exampleOps`: setting cell `(1, 1)` replaces
its two entries by one, and setting cell `(2, 0)` is an error. -/
theorem C12_setCellWithStyle_witness :
    TableFormatter.run exampleRender 0 exampleAllocLimit exampleOps (NewTableFormatter 2 ()) = some filledTable ∧
    (filledTable.SetCellWithStyle 1 1 7 "new").2 = none ∧
    (filledTable.SetCellWithStyle 1 1 7 "new").1.cellOf 1 1 = some ⟨[⟨"new", 7⟩]⟩ ∧
    (filledTable.SetCellWithStyle 1 1 7 "new").1.cellOf 1 0 = filledTable.cellOf 1 0 ∧
    ((filledTable.SetCellWithStyle 2 0 7 "new").2.isSome = true ↔
      ¬ (2 < filledTable.Rows ∧ 0 < filledTable.Cols)) :=
  have hthm := C12_setCellWithStyle exampleRender 0 exampleAllocLimit 2 () exampleOps filledTable rfl 1 1 7 "new"
  ⟨rfl, by decide, (hthm.2.2.1 (by decide)).1, (hthm.2.2.1 (by decide)).2.1 1 0 (Or.inr (by decide)),
    (C12_setCellWithStyle exampleRender 0 exampleAllocLimit 2 () exampleOps filledTable rfl 2 0 7 "new").1⟩

theorem foldl_append_eq_join (l : List String) (buf : String) :
    l.foldl (fun r t => r ++ t) buf = buf ++ String.join l := by
  induction l generalizing buf with
  | nil => simp [String.join]
  | cons x xs ih =>
    rw [List.foldl_cons, ih]
    unfold String.join
    rw [List.foldl_cons, ih (("" : String) ++ x), String.empty_append, String.append_assoc]
    rw [ih "", String.empty_append]

theorem rowString_loop_eq (row : List tableCell) :
    row.foldl
      (fun buf cell => cell.textEntries.foldl (fun b textEntry => b ++ textEntry.text) buf
        ++ tfSeparator) "" = rowText row := by
  have hcell : ∀ (cell : tableCell) (buf : String),
      cell.textEntries.foldl (fun b textEntry => b ++ textEntry.text) buf ++ tfSeparator =
        buf ++ (String.join (cell.textEntries.map (fun textEntry => textEntry.text)) ++ " ") := by
    intro cell buf
    have := foldl_append_eq_join (cell.textEntries.map (fun textEntry => textEntry.text)) buf
    rw [List.foldl_map] at this
    rw [this, String.append_assoc]
    rfl
  have hfun : (fun (buf : String) (cell : tableCell) =>
      cell.textEntries.foldl (fun b textEntry => b ++ textEntry.text) buf ++ tfSeparator) =
      (fun buf cell => buf ++
        (String.join (cell.textEntries.map (fun textEntry => textEntry.text)) ++ " ")) := by
    funext buf cell
    exact hcell cell buf
  rw [hfun]
  have := foldl_append_eq_join
    (row.map (fun cell =>
      String.join (cell.textEntries.map (fun textEntry => textEntry.text)) ++ " ")) ""
  rw [List.foldl_map, String.empty_append] at this
  exact this

/-- C14: `RowString` returns an error exactly when `rowIndex >= Rows()`;
otherwise its result is, column by column in increasing order, the texts of the
entries of the cell in their order followed by one separator " " (also after
the last column); entries are in the order of the calls, since a successful
`AppendToCellWithStyle` puts its entry after the entries the cell holds; and
the formatter is not modified. -/
theorem C14_rowString {Config : Type}
    (DetermineRenderedCodePoint : Char → Nat → Config → List RenderedCodePoint)
    (CmpNone : ThemeComponentID) (allocLimit : Nat) (cols : Nat) (config : Config) (ops : List TableOp)
    (tf : TableFormatter Config)
    (hreach : TableFormatter.run DetermineRenderedCodePoint CmpNone allocLimit ops
      (NewTableFormatter cols config) = some tf)
    (rowIndex : Nat) :
    ((tf.RowString rowIndex).2.isSome = true ↔ rowIndex ≥ tf.Rows) ∧
    (∀ row, tf.cells[rowIndex]? = some row → tf.RowString rowIndex = (rowText row, none)) ∧
    (∀ (colIndex : Nat) (themeComponentID : ThemeComponentID) (text : String),
      (tf.AppendToCellWithStyle rowIndex colIndex themeComponentID text).2 = none →
      ∃ cell, tf.cellOf rowIndex colIndex = some cell ∧
        (tf.AppendToCellWithStyle rowIndex colIndex themeComponentID text).1.cellOf
            rowIndex colIndex =
          some { textEntries := cell.textEntries ++
            [{ text := text, themeComponentID := themeComponentID }] }) ∧
    (tf.RowStringCall rowIndex).2 = tf := by
  have hshape := hasShape_run DetermineRenderedCodePoint CmpNone allocLimit ops _ tf cols
    (hasShape_new cols config) hreach
  refine ⟨?_, ?_, ?_, rfl⟩
  · unfold TableFormatter.RowString
    by_cases hg : rowIndex ≥ tf.Rows
    · simp [hg]
    · simp [hg]
  · intro row hrow
    have hr : rowIndex < tf.cells.length := by
      by_contra hge
      rw [List.getElem?_eq_none (Nat.le_of_not_lt hge)] at hrow
      cases hrow
    unfold TableFormatter.RowString
    have hlt : ¬ rowIndex ≥ tf.Rows := by unfold TableFormatter.Rows; omega
    rw [if_neg hlt, List.getD_eq_getElem?_getD, hrow, Option.getD_some, rowString_loop_eq]
  · intro colIndex themeComponentID text hok
    unfold TableFormatter.AppendToCellWithStyle at hok ⊢
    by_cases hg : rowIndex < tf.Rows ∧ colIndex < tf.Cols
    · rw [if_neg (not_not.mpr hg)]
      obtain ⟨row, hrow, hc⟩ := guard_in_range tf cols rowIndex colIndex hshape hg
      have hcellOf : tf.cellOf rowIndex colIndex = some row[colIndex] := by
        unfold TableFormatter.cellOf
        rw [hrow]
        exact List.getElem?_eq_getElem hc
      refine ⟨row[colIndex], hcellOf, ?_⟩
      rw [cellOf_setCellAt tf rowIndex colIndex _ row hrow hc,
        cellAt_of_cellOf tf rowIndex colIndex _ hcellOf]
      simp
    · rw [if_pos hg] at hok
      cases hok

/-- Witness of C14 on the table of `exampleOps`: row `1` reads "d efg ", and
row `2` is an error. -/
theorem C14_rowString_witness :
    TableFormatter.run exampleRender 0 exampleAllocLimit exampleOps (NewTableFormatter 2 ()) = some filledTable ∧
    filledTable.RowString 1 = ("d efg ", none) ∧
    ((filledTable.RowString 2).2.isSome = true ↔ 2 ≥ filledTable.Rows) :=
  ⟨rfl,
    (C14_rowString exampleRender 0 exampleAllocLimit 2 () exampleOps filledTable rfl 1).2.1
      [⟨[⟨"d", 0⟩]⟩, ⟨[⟨"ef", 5⟩, ⟨"g", 0⟩]⟩] rfl,
    (C14_rowString exampleRender 0 exampleAllocLimit 2 () exampleOps filledTable rfl 2).1⟩

/-! ## Lemmas on column widths -/

end Grv
